import Mathlib

/-!
# Request pipeline of `src/api/main.go`

A shallow embedding of the HTTP middleware chain of the API server
(`tenantMiddleware`, `metricsMiddleware`, `responseWriter`, `rateLimitMiddleware`,
`getTenantID`, the handlers and the route table built by `initialize`), together with
the facts about it that the specification states.

Conventions of the embedding:

* Go `int` is the 64-bit signed integer, kept as an `Int` that every producer clamps or
  range-checks explicitly.
* A handler is a function of the request and the application state; what it does to the
  `http.ResponseWriter` it is handed is the list of method calls it makes on it, in order.
* A Go panic is an outcome with `panicked = true`; effects that happened before the panic
  are kept.
* The Redis server, the JWT library and the gorilla/mux router are collaborators outside
  the repository; they are modelled from their documented behaviour, and the parts that
  depend on the environment (command failures, token verification, the database) are
  parameters.
* Writes to the process log (`log.Printf`) and the creation of the metric objects in
  `initialize` have no effect that a request can observe and are left out.
* Time does not pass inside the model: a key keeps the time to live it was given, and
  durations are differences of a clock the handlers may advance.
* Concurrent requests are runs of the limiter that take turns at the granularity of one
  Redis command, in the order a schedule gives.
-/

namespace Api

/-! ## Decimal text of integers (`strconv.Itoa`, `strconv.Atoi`) -/

/-- Largest value of a Go `int` on a 64-bit platform. -/
def maxInt64 : Int := 9223372036854775807

/-- Smallest value of a Go `int` on a 64-bit platform. -/
def minInt64 : Int := -9223372036854775808

/-- The character of a decimal digit. -/
def digitChar (d : Nat) : Char := Char.ofNat (48 + d)

/-- The value of a decimal digit character, `none` for any other character. -/
def digitVal (c : Char) : Option Nat :=
  if 48 ≤ c.toNat ∧ c.toNat ≤ 57 then some (c.toNat - 48) else none

/-- Decimal digits of a number, least significant first; `fuel` bounds the recursion. -/
def decimalRev : Nat → Nat → List Nat
  | 0, _ => []
  | fuel + 1, n => if n < 10 then [n] else (n % 10) :: decimalRev fuel (n / 10)

/-- Value of a list of decimal digits, least significant first. -/
def evalRev : List Nat → Nat
  | [] => 0
  | d :: ds => d + 10 * evalRev ds

/-- Decimal text of a natural number. -/
def formatNat (n : Nat) : List Char := ((decimalRev (n + 1) n).reverse).map digitChar

/-- Go `strconv.Itoa`: decimal text of an integer, with a leading `-` when negative. -/
def Itoa (i : Int) : String :=
  match i with
  | Int.ofNat n => ⟨formatNat n⟩
  | Int.negSucc n => ⟨'-' :: formatNat (n + 1)⟩

/-- Reads a run of decimal digits, most significant first, onto an accumulator. -/
def parseDigits : List Char → Nat → Option Nat
  | [], acc => some acc
  | c :: cs, acc =>
    match digitVal c with
    | none => none
    | some d => parseDigits cs (acc * 10 + d)

/-- A signed decimal integer of any size: an optional sign followed by at least one
digit, nothing else; `none` for any other text. -/
def parseInt (s : List Char) : Option Int :=
  match s with
  | [] => none
  | c :: cs =>
    if c = '-' then
      (if cs = [] then none else (parseDigits cs 0).map (fun (n : Nat) => -(Int.ofNat n)))
    else if c = '+' then
      (if cs = [] then none else (parseDigits cs 0).map (fun (n : Nat) => Int.ofNat n))
    else (parseDigits (c :: cs) 0).map (fun (n : Nat) => Int.ofNat n)

/-- Largest value of a Go `uint64`. -/
def maxUint64 : Nat := 18446744073709551615

/-- The result of `strconv.ParseUint`: a value, a syntax error, or a range error. -/
inductive UintResult where
  | ok (n : Nat)
  | badSyntax
  | outOfRange
  deriving DecidableEq, Repr

/-- The digit loop of `strconv.ParseUint(s, 10, 64)`, left to right on an accumulator:
a character that is no digit is a syntax error; a digit that takes the value past
`uint64` is a range error, reported at once, whatever follows it. -/
def parseUintDigits : List Char → Nat → UintResult
  | [], n => UintResult.ok n
  | c :: cs, n =>
    match digitVal c with
    | none => UintResult.badSyntax
    | some d =>
      if n ≥ maxUint64 / 10 + 1 then UintResult.outOfRange
      else if n * 10 + d > maxUint64 then UintResult.outOfRange
      else parseUintDigits cs (n * 10 + d)

/-- Go `strconv.ParseUint(s, 10, 64)`; the empty string is a syntax error. -/
def ParseUint (s : List Char) : UintResult :=
  if s = [] then UintResult.badSyntax else parseUintDigits s 0

/-- Go `strconv.Atoi` on a 64-bit platform with the error result dropped, as
`count, _ = strconv.Atoi(countStr)` uses it (the value of `ParseInt(s, 10, 0)`; the fast
path for short strings computes the same): an optional sign, then `ParseUint` on the
rest. The value is 0 on a syntax error and the nearest bound of `int` on a range error,
also when the range error of `ParseUint` comes before a character that is no digit. -/
def Atoi (s : String) : Int :=
  match s.data with
  | [] => 0
  | c :: cs =>
    let neg : Bool := decide (c = '-')
    let body : List Char := if c = '+' ∨ c = '-' then cs else c :: cs
    match ParseUint body with
    | UintResult.badSyntax => 0
    | UintResult.outOfRange => if neg then minInt64 else maxInt64
    | UintResult.ok un =>
      if neg then (if un > 9223372036854775808 then minInt64 else -(Int.ofNat un))
      else (if un ≥ 9223372036854775808 then maxInt64 else Int.ofNat un)

/-! ## The counter store (Redis), as the limiter uses it -/

/-- A command the client sends to the Redis server. -/
inductive RedisCmd where
  | get (key : String)
  | setex (key : String) (value : String) (ttl : Nat)
  | incr (key : String)
  deriving DecidableEq, Repr

/-- The key a command addresses. -/
def RedisCmd.key : RedisCmd → String
  | .get k => k
  | .setex k _ _ => k
  | .incr k => k

/-- Whether a command changes the stored data. -/
def RedisCmd.isWrite : RedisCmd → Bool
  | .get _ => false
  | .setex _ _ _ => true
  | .incr _ => true

/-- The error result of a client call: `nil`, `redis.Nil` (key not found) or any other
error (connection refused, timeout, read-only replica, wrong value, ...). -/
inductive RedisErr where
  | none
  | Nil
  | other
  deriving DecidableEq, Repr

/-- A stored string value with its remaining time to live in seconds (`none`: no expiry). -/
structure Entry where
  value : String
  ttl : Option Nat
  deriving DecidableEq, Repr

/-- The Redis server as seen through `a.Redis`: the stored entries, the commands that the
environment makes fail, and the commands received so far, oldest first. Time does not
pass in this model, so no entry expires. -/
structure Redis where
  kv : String → Option Entry
  fails : RedisCmd → Bool
  log : List RedisCmd

/-- The integer a stored string denotes for `INCR`: the canonical decimal text of a
64-bit signed integer and nothing else. -/
def string2ll (v : String) : Option Int :=
  match parseInt v.data with
  | none => none
  | some i => if minInt64 ≤ i ∧ i ≤ maxInt64 ∧ Itoa i = v then some i else none

/-- Redis `GET` through `a.Redis.Get(ctx, key).Result()`: the value and the error. -/
def Redis.Get (s : Redis) (key : String) : (String × RedisErr) × Redis :=
  let s1 : Redis := { s with log := s.log ++ [RedisCmd.get key] }
  if s.fails (RedisCmd.get key) then (("", RedisErr.other), s1)
  else
    match s.kv key with
    | none => (("", RedisErr.Nil), s1)
    | some e => ((e.value, RedisErr.none), s1)

/-- Redis `SETEX key ttl value`: stores the value with a time to live. -/
def Redis.SetEX (s : Redis) (key : String) (value : String) (ttl : Nat) : RedisErr × Redis :=
  let s1 : Redis := { s with log := s.log ++ [RedisCmd.setex key value ttl] }
  if s.fails (RedisCmd.setex key value ttl) then (RedisErr.other, s1)
  else (RedisErr.none, { s1 with kv := Function.update s.kv key (some ⟨value, some ttl⟩) })

/-- Redis `INCR key`: adds one to the integer stored at the key, keeping its time to
live; an absent key counts as 0 and is created without expiry; a value that is not an
integer, or an increment past the 64-bit range, is an error and changes nothing. -/
def Redis.Incr (s : Redis) (key : String) : (Int × RedisErr) × Redis :=
  let s1 : Redis := { s with log := s.log ++ [RedisCmd.incr key] }
  if s.fails (RedisCmd.incr key) then ((0, RedisErr.other), s1)
  else
    match s.kv key with
    | none => ((1, RedisErr.none), { s1 with kv := Function.update s.kv key (some ⟨Itoa 1, none⟩) })
    | some e =>
      match string2ll e.value with
      | none => ((0, RedisErr.other), s1)
      | some v =>
        if v = maxInt64 then ((0, RedisErr.other), s1)
        else ((v + 1, RedisErr.none),
          { s1 with kv := Function.update s.kv key (some ⟨Itoa (v + 1), e.ttl⟩) })

/-! ## Requests, contexts and response writers -/

/-- A value bound in a request context (`interface{}`): a string or something else. -/
inductive CtxValue where
  | str (s : String)
  | other (tag : Nat)
  deriving DecidableEq, Repr

/-- A `context.Context` restricted to its string-keyed values, innermost binding first. -/
abbrev Context := List (String × CtxValue)

/-- Go `ctx.Value(key)`: the innermost binding of the key, `none` for Go's `nil`. -/
def Context.Value (ctx : Context) (key : String) : Option CtxValue :=
  match ctx with
  | [] => none
  | (k, v) :: rest => if k = key then some v else Context.Value rest key

/-- Go `context.WithValue(parent, key, val)`. -/
def Context.WithValue (parent : Context) (key : String) (val : CtxValue) : Context :=
  (key, val) :: parent

/-- Go `http.Header.Get` on canonical keys: the first value of the key, `""` if none. -/
def headerGet (h : List (String × String)) (key : String) : String :=
  match h with
  | [] => ""
  | (k, v) :: rest => if k = key then v else headerGet rest key

/-- The parts of `*http.Request` the pipeline reads. -/
structure Request where
  Method : String
  Path : String
  Header : List (String × String)
  ctx : Context
  Body : String

/-- Go `r.WithContext(ctx)`. -/
def Request.WithContext (r : Request) (ctx : Context) : Request := { r with ctx := ctx }

/-- A method call on an `http.ResponseWriter`. -/
inductive WriterCall where
  | HeaderSet (key value : String)
  | WriteHeader (code : Int)
  | Write (data : String)
  deriving DecidableEq, Repr

/-- The server side of an `http.ResponseWriter`, as net/http's `response` keeps it: the
header and the final status sent, the informational (1xx) statuses sent before it, the
body, and whether a call panicked inside the writer. -/
structure ResponseRecorder where
  Header : List (String × String)
  wroteHeader : Bool
  Code : Int
  Body : String
  informational : List Int
  panicked : Bool
  deriving DecidableEq, Repr

/-- A writer on which nothing is written yet; the status is 200 unless one is written. -/
def NewRecorder : ResponseRecorder :=
  { Header := [], wroteHeader := false, Code := 200, Body := "", informational := [],
    panicked := false }

/-- One call on the underlying writer, as net/http serves it.
`Header().Set` replaces the values of the key; header changes after the status went out
are not sent. `WriteHeader`: once the final status is out a further call is logged as
superfluous and dropped, whatever its code; otherwise a code outside 100..999 panics, a
1xx code other than 101 is sent as an informational status and leaves the final status
open, and any other code is the final status. A `Write` before any final `WriteHeader`
sends 200. After a panic no further call happens. -/
def ResponseRecorder.call (w : ResponseRecorder) (c : WriterCall) : ResponseRecorder :=
  if w.panicked then w
  else
    match c with
    | WriterCall.HeaderSet k v =>
      if w.wroteHeader then w
      else { w with Header := w.Header.filter (fun p => decide (p.1 ≠ k)) ++ [(k, v)] }
    | WriterCall.WriteHeader code =>
      if w.wroteHeader then w
      else if code < 100 ∨ code > 999 then { w with panicked := true }
      else if code ≤ 199 ∧ code ≠ 101 then { w with informational := w.informational ++ [code] }
      else { w with wroteHeader := true, Code := code }
    | WriterCall.Write data =>
      if w.wroteHeader then { w with Body := w.Body ++ data }
      else { w with wroteHeader := true, Code := 200, Body := w.Body ++ data }

/-- The response a fresh writer ends with after a sequence of calls. -/
def replay (calls : List WriterCall) : ResponseRecorder :=
  calls.foldl ResponseRecorder.call NewRecorder

/-- Label values of the two metric vectors: path, method, status. -/
structure Labels where
  path : String
  method : String
  status : String
  deriving DecidableEq, Repr

/-- The mutable state behind `*App`: the Redis server, the observations made on the
duration histogram, the increments made on the request counter, the in-flight gauge and
the clock that `time.Now()` reads. -/
structure App where
  Redis : Redis
  RequestDuration : List (Labels × Nat)
  RequestCounter : List Labels
  ActiveRequests : Int
  now : Nat

/-- What serving a request did: the calls made on the response writer, the state left
behind, and whether the handler panicked instead of returning. A call that panics inside
the writer is a panic of the handler that made it: the calls end with it and `panicked`
is set. -/
structure Outcome where
  calls : List WriterCall
  app : App
  panicked : Bool

/-- An `http.Handler`. -/
abbrev Handler := Request → App → Outcome

/-- The status the caller receives: the final status the writer sent, or nothing when
the handler panicked, in its own code or inside the writer (the server recovers the
panic and drops the connection). -/
def Outcome.status (o : Outcome) : Option Int :=
  if o.panicked = true ∨ (replay o.calls).panicked = true then none
  else some (replay o.calls).Code

/-- Go `http.Error(w, error, code)`. -/
def httpError (error : String) (code : Int) : List WriterCall :=
  [WriterCall.HeaderSet "Content-Type" "text/plain; charset=utf-8",
   WriterCall.HeaderSet "X-Content-Type-Options" "nosniff",
   WriterCall.WriteHeader code,
   WriterCall.Write (error ++ "\n")]

/-! ## Tenant identity -/

/-- The custom claims of the token (`Claims`); a claim missing from the token leaves its
field at the empty string. -/
structure Claims where
  TenantID : String
  UserID : String
  deriving DecidableEq, Repr

/-- What `jwt.ParseWithClaims` hands back: the decoded claims, whether `err == nil`, and
`token.Valid`. -/
structure ParsedToken where
  claims : Claims
  errNil : Bool
  Valid : Bool
  deriving DecidableEq, Repr

/-- Go `strings.TrimPrefix`. -/
def TrimPrefix (s : String) (pre : String) : String :=
  if pre.data.isPrefixOf s.data then ⟨s.data.drop pre.data.length⟩ else s

/-- `App.tenantMiddleware`. The JWT library call, with the key function and the secret
it closes over, is the parameter `ParseWithClaims`. -/
def tenantMiddleware (ParseWithClaims : String → ParsedToken) (next : Handler) : Handler :=
  fun r a =>
    let authHeader := headerGet r.Header "Authorization"
    if authHeader = "" then
      { calls := httpError "Authorization header required" 401, app := a, panicked := false }
    else
      let tokenString := TrimPrefix authHeader "Bearer "
      if tokenString = authHeader then
        { calls := httpError "Bearer token required" 401, app := a, panicked := false }
      else
        let token := ParseWithClaims tokenString
        if !token.errNil || !token.Valid then
          { calls := httpError "Invalid token" 401, app := a, panicked := false }
        else
          let ctx := Context.WithValue r.ctx "tenant_id" (CtxValue.str token.claims.TenantID)
          next (r.WithContext ctx) a

/-- `getTenantID`: the checked type assertion `Value("tenant_id").(string)`. -/
def getTenantID (r : Request) : String :=
  match Context.Value r.ctx "tenant_id" with
  | some (CtxValue.str tenantID) => tenantID
  | _ => ""

/-! ## Metrics -/

/-- The `responseWriter` wrapper: the embedded writer is the one the calls are passed on
to, so only the captured status is state of its own. -/
structure responseWriter where
  statusCode : Int
  deriving DecidableEq, Repr

/-- `responseWriter.WriteHeader`: records the code and passes the call on. -/
def responseWriter.WriteHeader (rw : responseWriter) (code : Int) :
    responseWriter × List WriterCall :=
  ({ rw with statusCode := code }, [WriterCall.WriteHeader code])

/-- One call on the wrapper: `WriteHeader` is the wrapper's own method, every other
method is promoted from the embedded writer. The result is the wrapper afterwards and
the calls it made on the embedded writer. -/
def responseWriter.call (rw : responseWriter) : WriterCall → responseWriter × List WriterCall
  | .WriteHeader code => rw.WriteHeader code
  | c => (rw, [c])

/-- A sequence of calls on the wrapper. -/
def responseWriter.serve (rw : responseWriter) : List WriterCall → responseWriter × List WriterCall
  | [] => (rw, [])
  | c :: cs =>
    let (rw1, out1) := rw.call c
    let (rw2, out2) := responseWriter.serve rw1 cs
    (rw2, out1 ++ out2)

/-- `App.metricsMiddleware`. The deferred `ActiveRequests.Dec()` runs on return and on
panic; the statements after `next.ServeHTTP` run on return only. Durations are kept in
clock units. -/
def metricsMiddleware (next : Handler) : Handler :=
  fun r a =>
    let start := a.now
    let a1 : App := { a with ActiveRequests := a.ActiveRequests + 1 }
    let o := next r a1
    let (wrapped, forwarded) := responseWriter.serve { statusCode := 200 } o.calls
    if o.panicked then
      { calls := forwarded,
        app := { o.app with ActiveRequests := o.app.ActiveRequests - 1 },
        panicked := true }
    else
      let duration := o.app.now - start
      let labels : Labels :=
        { path := r.Path, method := r.Method, status := Itoa wrapped.statusCode }
      let a2 : App := { o.app with RequestDuration := o.app.RequestDuration ++ [(labels, duration)] }
      let a3 : App := { a2 with RequestCounter := a2.RequestCounter ++ [labels] }
      { calls := forwarded,
        app := { a3 with ActiveRequests := a3.ActiveRequests - 1 },
        panicked := false }

/-! ## Rate limiting -/

/-- The key `fmt.Sprintf("rate_limit:%s", tenantID)`. -/
def rateLimitKey (tenantID : String) : String := "rate_limit:" ++ tenantID

/-- `App.rateLimitMiddleware`. The unchecked assertion `Value("tenant_id").(string)`
panics when nothing or a non-string is bound; the results of `SetEX` and `Incr` are
discarded, as in the source. `time.Minute` is 60 seconds. -/
def rateLimitMiddleware (next : Handler) : Handler :=
  fun r a =>
    match Context.Value r.ctx "tenant_id" with
    | some (CtxValue.str tenantID) =>
      let key := rateLimitKey tenantID
      let ((countStr, err), redis1) := a.Redis.Get key
      if err ≠ RedisErr.none ∧ err ≠ RedisErr.Nil then
        { calls := httpError "Internal server error" 500,
          app := { a with Redis := redis1 }, panicked := false }
      else
        let count : Int := if countStr ≠ "" then Atoi countStr else 0
        if count ≥ 100 then
          { calls := httpError "Rate limit exceeded" 429,
            app := { a with Redis := redis1 }, panicked := false }
        else
          let redis2 : Redis :=
            if count = 0 then (redis1.SetEX key (Itoa 1) 60).2 else (redis1.Incr key).2
          next r { a with Redis := redis2 }
    | _ => { calls := [], app := a, panicked := true }

/-! ## Handlers -/

/-- `APIResponse`; `Data` holds the JSON text of the value, `none` for a nil interface. -/
structure APIResponse where
  Status : String
  Message : String
  Data : Option String
  deriving DecidableEq, Repr

/-- Four-digit hexadecimal text of a code point below 65536, for `\uXXXX`. -/
def hex4 (n : Nat) : String :=
  let d := fun (k : Nat) => (Nat.toDigits 16 ((n / 16 ^ k) % 16)).asString
  d 3 ++ d 2 ++ d 1 ++ d 0

/-- One character inside a JSON string as `encoding/json` writes it with HTML escaping
on (the encoder's default): short escapes for the quote, the backslash, backspace, form
feed, newline, carriage return and tab; `\u00XX` for the other control characters and
for `<`, `>`, `&` and for the line separators U+2028 and U+2029. -/
def jsonChar (c : Char) : String :=
  if c = '"' then "\\\""
  else if c = '\\' then "\\\\"
  else if c.toNat = 8 then "\\b"
  else if c.toNat = 12 then "\\f"
  else if c = '\n' then "\\n"
  else if c = '\r' then "\\r"
  else if c = '\t' then "\\t"
  else if c.toNat < 32 ∨ c = '<' ∨ c = '>' ∨ c = '&' ∨ c.toNat = 8232 ∨ c.toNat = 8233 then
    "\\u" ++ hex4 c.toNat
  else c.toString

/-- A JSON string literal. -/
def jsonString (s : String) : String :=
  "\"" ++ String.join (s.data.map jsonChar) ++ "\""

/-- The JSON object of an `APIResponse`; `message` and `data` carry `omitempty`. -/
def APIResponse.json (v : APIResponse) : String :=
  "\x7b\"status\":" ++ jsonString v.Status
    ++ (if v.Message = "" then "" else ",\"message\":" ++ jsonString v.Message)
    ++ (match v.Data with
        | none => ""
        | some d => ",\"data\":" ++ d)
    ++ "\x7d"

/-- `json.NewEncoder(w).Encode(v)`: one `Write` of the object and a newline. -/
def jsonEncode (v : APIResponse) : List WriterCall := [WriterCall.Write (v.json ++ "\n")]

/-- `App.healthHandler`. -/
def healthHandler : Handler :=
  fun _ a =>
    { calls := WriterCall.HeaderSet "Content-Type" "application/json"
        :: jsonEncode { Status := "success", Message := "API is running", Data := none },
      app := a, panicked := false }

/-- `App.getDataHandler`: the guard on the tenant identity, then the database query and
the encoding of its rows, which is the parameter `query` (given the tenant id). -/
def getDataHandler (query : String → Handler) : Handler :=
  fun r a =>
    let tenantID := getTenantID r
    if tenantID = "" then
      { calls := httpError "Tenant ID not found" 500, app := a, panicked := false }
    else query tenantID r a

/-- `App.createUserHandler`: the guard on the tenant identity, then the decoding of the
body and the insert, which is the parameter `insert` (given the tenant id). -/
def createUserHandler (insert : String → Handler) : Handler :=
  fun r a =>
    let tenantID := getTenantID r
    if tenantID = "" then
      { calls := httpError "Tenant ID not found" 500, app := a, panicked := false }
    else insert tenantID r a

/-- The `nextHandler` of `TestRateLimitMiddleware`: `w.WriteHeader(http.StatusOK)`. -/
def nextHandler : Handler :=
  fun _ a => { calls := [WriterCall.WriteHeader 200], app := a, panicked := false }

/-! ## Routing (gorilla/mux) and `initialize` -/

/-- A route: an exact path (`HandleFunc`) or a path beginning (`PathPrefix`), the methods
it is limited to (`[]`: any method), and its handler. -/
structure Route where
  tpl : String
  isPathPrefix : Bool
  methods : List String
  handler : Handler

/-- A `mux.Router`: the middlewares in the order of the `Use` calls and the routes in the
order of registration. -/
structure Router where
  middlewares : List (Handler → Handler)
  routes : List Route

/-- Go `mux.NewRouter()`. -/
def NewRouter : Router := { middlewares := [], routes := [] }

/-- Go `Router.Use`. -/
def Router.Use (rt : Router) (mw : Handler → Handler) : Router :=
  { rt with middlewares := rt.middlewares ++ [mw] }

/-- Go `Router.PathPrefix(tpl).Handler(h)`. -/
def Router.PathPrefixHandler (rt : Router) (tpl : String) (h : Handler) : Router :=
  { rt with routes := rt.routes ++ [{ tpl := tpl, isPathPrefix := true, methods := [], handler := h }] }

/-- Go `Router.HandleFunc(path, f).Methods(methods...)`. -/
def Router.HandleFunc (rt : Router) (path : String) (f : Handler) (methods : List String) : Router :=
  { rt with routes := rt.routes ++ [{ tpl := path, isPathPrefix := false, methods := methods, handler := f }] }

/-- Whether the path of a request matches the route. -/
def Route.matchesPath (rte : Route) (r : Request) : Bool :=
  if rte.isPathPrefix then rte.tpl.data.isPrefixOf r.Path.data else decide (rte.tpl = r.Path)

/-- Whether the method of a request matches the route. -/
def Route.matchesMethod (rte : Route) (r : Request) : Bool :=
  rte.methods.isEmpty || rte.methods.contains r.Method

/-- The result of matching a request against the routes. -/
inductive RouteMatch where
  | found (h : Handler)
  | methodMismatch
  | notFound

/-- Go `Router.Match` over the routes in order: the first route whose path and method
match; a route whose path matches with another method leaves a method mismatch behind
unless a later route matches. -/
def matchRoutes : List Route → Request → Bool → RouteMatch
  | [], _, mismatch => if mismatch then RouteMatch.methodMismatch else RouteMatch.notFound
  | rte :: rest, r, mismatch =>
    if rte.matchesPath r then
      (if rte.matchesMethod r then RouteMatch.found rte.handler else matchRoutes rest r true)
    else matchRoutes rest r mismatch

/-- The handler a matched route is served by: the middlewares wrapped around the route's
handler, the one registered first outermost. -/
def Router.wrap (rt : Router) (h : Handler) : Handler :=
  rt.middlewares.foldr (fun mw acc => mw acc) h

/-- Go `Router.ServeHTTP` for a request whose path is already clean: the middlewares run
only when a route matched; otherwise 405 or 404 is answered directly. -/
def Router.ServeHTTP (rt : Router) : Handler :=
  fun r a =>
    match matchRoutes rt.routes r false with
    | RouteMatch.found h => rt.wrap h r a
    | RouteMatch.methodMismatch =>
      { calls := [WriterCall.WriteHeader 405], app := a, panicked := false }
    | RouteMatch.notFound =>
      { calls := httpError "404 page not found" 404, app := a, panicked := false }

/-- The collaborators `initialize` wires in: the JWT verification, the database parts of
the two business handlers, the metrics exposition handler, and the error of `initDB`
(`none`: the schema was created). -/
structure Deps where
  ParseWithClaims : String → ParsedToken
  query : String → Handler
  insert : String → Handler
  promHandler : Handler
  initDBErr : Option String

/-- `App.initialize` (named `initializeApp`, the source's name being a reserved word), on
the router `main` created: the error of `initDB`, or the router
with the three middlewares and the four routes registered in source order. -/
def initializeApp (deps : Deps) (router : Router) : Except String Router :=
  match deps.initDBErr with
  | some err => Except.error err
  | none =>
    let r1 := router.Use metricsMiddleware
    let r2 := r1.Use rateLimitMiddleware
    let r3 := r2.Use (tenantMiddleware deps.ParseWithClaims)
    let r4 := r3.PathPrefixHandler "/metrics" deps.promHandler
    let r5 := r4.HandleFunc "/health" healthHandler ["GET"]
    let r6 := r5.HandleFunc "/api/data" (getDataHandler deps.query) ["GET"]
    let r7 := r6.HandleFunc "/api/users" (createUserHandler deps.insert) ["POST"]
    Except.ok r7

/-- The handler the server runs after a successful `initialize` (`http.ListenAndServe`
with `app.Router`); `none` when `initialize` failed and `main` exited. -/
def server (deps : Deps) : Option Handler :=
  match initializeApp deps NewRouter with
  | Except.ok rt => some rt.ServeHTTP
  | Except.error _ => none

/-! ## Sequential and interleaved runs of the limiter -/

/-- The state left by a sequence of requests served one after the other, each by
`rateLimitMiddleware` in front of the next handler of its route. -/
def serveSeq : List (Handler × Request) → App → App
  | [], a => a
  | (next, r) :: rest, a => serveSeq rest (rateLimitMiddleware next r a).app

/-- A run of the limiter for tenant `t`: the request has `t` bound as its tenant, and the
next handler leaves the Redis server alone (in this repository only the limiter talks to
Redis). -/
def RunOf (t : String) (p : Handler × Request) : Prop :=
  Context.Value p.2.ctx "tenant_id" = some (CtxValue.str t)
    ∧ ∀ (r1 : Request) (a1 : App), (p.1 r1 a1).app.Redis = a1.Redis

/-- The store stands at `c` admitted requests for a key in a window without store
errors: no command fails, and the key is absent for `c = 0` and otherwise holds `c` with
60 seconds to live. -/
def CounterAt (key : String) (s : Redis) (c : Nat) : Prop :=
  (∀ cmd, s.fails cmd = false)
    ∧ (c = 0 → s.kv key = none)
    ∧ (0 < c → s.kv key = some ⟨Itoa (c : Int), some 60⟩)

/-- Where one run of `rateLimitMiddleware` stands between its two store commands. -/
inductive RunState where
  | start
  | checked (count : Int)
  | admitted
  | rejected (code : Int)
  deriving DecidableEq, Repr

/-- One store command of a run of `rateLimitMiddleware` on the given key: from `start`
the `Get` and the limit check, from `checked` the `SetEX` or `Incr` after which the next
handler is called. A finished run does nothing. -/
def RunState.step (key : String) (st : RunState) (s : Redis) : RunState × Redis :=
  match st with
  | RunState.start =>
    let ((countStr, err), redis1) := s.Get key
    if err ≠ RedisErr.none ∧ err ≠ RedisErr.Nil then (RunState.rejected 500, redis1)
    else
      let count : Int := if countStr ≠ "" then Atoi countStr else 0
      if count ≥ 100 then (RunState.rejected 429, redis1) else (RunState.checked count, redis1)
  | RunState.checked count =>
    (RunState.admitted, if count = 0 then (s.SetEX key (Itoa 1) 60).2 else (s.Incr key).2)
  | RunState.admitted => (RunState.admitted, s)
  | RunState.rejected code => (RunState.rejected code, s)

/-- Whether a run has called the next handler. -/
def RunState.isAdmitted : RunState → Bool
  | RunState.admitted => true
  | _ => false

/-- Whether a run has ended, admitted or rejected. -/
def RunState.isDone : RunState → Bool
  | RunState.admitted => true
  | RunState.rejected _ => true
  | _ => false

/-- The run with index `i` issues its next store command; the other runs stand still. -/
def stepAt (key : String) (i : Nat) (sys : List RunState × Redis) : List RunState × Redis :=
  match sys.1[i]? with
  | none => sys
  | some st => ((sys.1.set i (st.step key sys.2).1), (st.step key sys.2).2)

/-- A schedule names, command by command, the run that goes next. -/
def runSchedule (key : String) (sched : List Nat) (sys : List RunState × Redis) :
    List RunState × Redis :=
  sched.foldl (fun acc i => stepAt key i acc) sys

/-- The schedule on which `n` runs do not interleave: run 0 issues both its commands,
then run 1, and so on. -/
def seqSchedule : Nat → List Nat
  | 0 => []
  | n + 1 => seqSchedule n ++ [n, n]

/-- What holds of `N` runs of the limiter on one key and their store at every point of
every schedule that starts from a fresh window without store errors: no command fails,
no run is rejected, a run past its check read a count no larger than the number of
admitted runs, and the key is absent while no run is admitted and otherwise holds a
count between 1 and the number of admitted runs, with 60 seconds to live. -/
def RunsInv (key : String) (sys : List RunState × Redis) : Prop :=
  (∀ c, sys.2.fails c = false)
  ∧ (∀ st ∈ sys.1, st = RunState.start ∨ st = RunState.admitted
      ∨ ∃ cnt : Nat, st = RunState.checked (cnt : Int)
          ∧ cnt ≤ sys.1.countP RunState.isAdmitted)
  ∧ ((sys.2.kv key = none ∧ sys.1.countP RunState.isAdmitted = 0)
      ∨ ∃ c : Nat, 1 ≤ c ∧ c ≤ sys.1.countP RunState.isAdmitted
          ∧ sys.2.kv key = some ⟨Itoa (c : Int), some 60⟩)

/-- The store after the limiter admitted a request on a key that was absent: the `Get`
and the `SetEX` are logged and the key holds 1 with 60 seconds to live. -/
def Redis.afterFirst (s : Redis) (key : String) : Redis :=
  { kv := Function.update s.kv key (some ⟨Itoa 1, some 60⟩),
    fails := s.fails,
    log := s.log ++ [RedisCmd.get key] ++ [RedisCmd.setex key (Itoa 1) 60] }

/-- The store after the limiter admitted a request on a key holding the count `c`: the
`Get` and the `Incr` are logged and the key holds `c + 1` with its time to live kept. -/
def Redis.afterIncr (s : Redis) (key : String) (c : Int) (ttl : Option Nat) : Redis :=
  { kv := Function.update s.kv key (some ⟨Itoa (c + 1), ttl⟩),
    fails := s.fails,
    log := s.log ++ [RedisCmd.get key] ++ [RedisCmd.incr key] }

/-! ## Concrete inputs -/

/-- An empty Redis server on which every command succeeds. -/
def emptyRedis : Redis := { kv := fun _ => none, fails := fun _ => false, log := [] }

/-- An application state with an empty store and no metrics recorded. -/
def freshApp : App :=
  { Redis := emptyRedis, RequestDuration := [], RequestCounter := [], ActiveRequests := 0, now := 0 }

/-- The request `GET /api/data` as the server receives it, with no `Authorization`
header and nothing bound in its context. -/
def anonymousRequest : Request :=
  { Method := "GET", Path := "/api/data", Header := [], ctx := [], Body := "" }

/-- The request of `TestRateLimitMiddleware`: `GET /test` with `"test-tenant"` bound. -/
def tenantRequest : Request :=
  { Method := "GET", Path := "/test", Header := [],
    ctx := Context.WithValue [] "tenant_id" (CtxValue.str "test-tenant"), Body := "" }

/-- A token verifier that accepts every token and decodes an empty `tenant_id` claim
(the claim is missing from the token or is the empty string). -/
def parseEmptyTenant : String → ParsedToken :=
  fun _ => { claims := { TenantID := "", UserID := "u1" }, errNil := true, Valid := true }

/-- A token verifier that accepts every token and decodes the tenant `"t1"`. -/
def parseTenantT1 : String → ParsedToken :=
  fun _ => { claims := { TenantID := "t1", UserID := "u1" }, errNil := true, Valid := true }

/-- The request `GET /api/data` with the header `Authorization: Bearer token`. -/
def bearerRequest : Request :=
  { Method := "GET", Path := "/api/data", Header := [("Authorization", "Bearer token")],
    ctx := [], Body := "" }

/-- The request `GET /health` with no `Authorization` header. -/
def healthRequest : Request :=
  { Method := "GET", Path := "/health", Header := [], ctx := [], Body := "" }

/-- A downstream handler that calls `WriteHeader(404)` and then `WriteHeader(500)`. -/
def twoHeadersHandler : Handler :=
  fun _ a =>
    { calls := [WriterCall.WriteHeader 404, WriterCall.WriteHeader 500], app := a,
      panicked := false }

/-- A downstream handler that panics at once. -/
def panicHandler : Handler := fun _ a => { calls := [], app := a, panicked := true }

/-- An empty Redis server that refuses every write (a read-only replica, or a
connection lost after the read): `GET` succeeds, `SETEX` and `INCR` fail. -/
def readOnlyRedis : Redis := { kv := fun _ => none, fails := RedisCmd.isWrite, log := [] }

/-- A read-only Redis server on which the test tenant's counter stands at 5. -/
def readOnlyRedisAt5 : Redis :=
  { kv := fun k => if k = rateLimitKey "test-tenant" then some ⟨"5", some 60⟩ else none,
    fails := RedisCmd.isWrite, log := [] }

/-- A Redis server that cannot be reached: every command fails. -/
def downRedis : Redis := { kv := fun _ => none, fails := fun _ => true, log := [] }

/-- A Redis server on which every command succeeds and one key holds a value with 60
seconds to live. -/
def redisHolding (key : String) (value : String) : Redis :=
  { kv := fun k => if k = key then some ⟨value, some 60⟩ else none,
    fails := fun _ => false, log := [] }

/-- An application state over the read-only server. -/
def readOnlyApp : App := { freshApp with Redis := readOnlyRedis }

/-- Collaborators for concrete runs: every token is rejected, the database parts and the
metrics exposition answer 200, and `initDB` succeeds. -/
def sampleDeps : Deps :=
  { ParseWithClaims := fun _ => { claims := { TenantID := "", UserID := "" }, errNil := false, Valid := false },
    query := fun _ => nextHandler,
    insert := fun _ => nextHandler,
    promHandler := nextHandler,
    initDBErr := none }

/-! # Theorems -/

/-! ## Round trip of the decimal text -/

theorem digitVal_digitChar (d : Nat) (h : d < 10) : digitVal (digitChar d) = some d := by
  interval_cases d <;> decide

theorem digitChar_ne_sign (d : Nat) (h : d < 10) : digitChar d ≠ '-' ∧ digitChar d ≠ '+' := by
  interval_cases d <;> decide

theorem parseDigits_snoc (l : List Char) (c : Char) (acc : Nat) :
    parseDigits (l ++ [c]) acc =
      (parseDigits l acc).bind (fun m => (digitVal c).map (fun d => m * 10 + d)) := by
  induction l generalizing acc with
  | nil =>
    simp only [List.nil_append, parseDigits, Option.some_bind]
    cases digitVal c <;> rfl
  | cons x xs ih =>
    simp only [List.cons_append, parseDigits]
    cases digitVal x with
    | none => rfl
    | some d => exact ih _

theorem parseDigits_reverse (ds : List Nat) (h : ∀ d ∈ ds, d < 10) :
    parseDigits ((ds.reverse).map digitChar) 0 = some (evalRev ds) := by
  induction ds with
  | nil => rfl
  | cons d ds ih =>
    have hd : d < 10 := h d (List.mem_cons_self _ _)
    have hds : ∀ x ∈ ds, x < 10 := fun x hx => h x (List.mem_cons_of_mem _ hx)
    rw [List.reverse_cons, List.map_append, List.map_singleton, parseDigits_snoc, ih hds,
      digitVal_digitChar d hd]
    simp only [Option.some_bind, Option.map_some', evalRev]
    congr 1
    omega

theorem decimalRev_lt (fuel n : Nat) : ∀ d ∈ decimalRev fuel n, d < 10 := by
  induction fuel generalizing n with
  | zero => intro d hd; simp [decimalRev] at hd
  | succ f ih =>
    intro d hd
    unfold decimalRev at hd
    split at hd
    · simp only [List.mem_singleton] at hd; omega
    · rcases List.mem_cons.mp hd with h | h
      · omega
      · exact ih _ d h

theorem evalRev_decimalRev (fuel n : Nat) (h : n < fuel) : evalRev (decimalRev fuel n) = n := by
  induction fuel generalizing n with
  | zero => omega
  | succ f ih =>
    unfold decimalRev
    split
    · simp [evalRev]
    · have : n / 10 < f := by omega
      simp only [evalRev, ih _ this]
      omega

theorem decimalRev_ne_nil (fuel n : Nat) : decimalRev (fuel + 1) n ≠ [] := by
  unfold decimalRev
  split <;> simp

theorem parseDigits_formatNat (n : Nat) : parseDigits (formatNat n) 0 = some n := by
  unfold formatNat
  rw [parseDigits_reverse _ (decimalRev_lt _ _), evalRev_decimalRev _ _ (Nat.lt_succ_self n)]

theorem formatNat_ne_nil (n : Nat) : formatNat n ≠ [] := by
  unfold formatNat
  simp [decimalRev_ne_nil]

theorem formatNat_digits (n : Nat) : ∀ c ∈ formatNat n, ∃ d, d < 10 ∧ c = digitChar d := by
  intro c hc
  unfold formatNat at hc
  rcases List.mem_map.mp hc with ⟨d, hd, rfl⟩
  exact ⟨d, decimalRev_lt _ _ d (List.mem_reverse.mp hd), rfl⟩

theorem parseInt_formatNat (n : Nat) : parseInt (formatNat n) = some (n : Int) := by
  have hp := parseDigits_formatNat n
  have hm := formatNat_digits n
  cases hf : formatNat n with
  | nil => exact absurd hf (formatNat_ne_nil n)
  | cons c cs =>
    rw [hf] at hp hm
    obtain ⟨d, hd, rfl⟩ := hm c (List.mem_cons_self _ _)
    have hs := digitChar_ne_sign d hd
    simp only [parseInt, hs.1, hs.2, if_false, hp, Option.map_some']
    rfl

theorem parseInt_Itoa (i : Int) : parseInt (Itoa i).data = some i := by
  cases i with
  | ofNat n => exact parseInt_formatNat n
  | negSucc n =>
    simp only [Itoa, parseInt, if_true, formatNat_ne_nil, if_false, parseDigits_formatNat,
      Option.map_some']
    rfl

theorem parseUintDigits_snoc (l : List Char) (c : Char) (acc : Nat) :
    parseUintDigits (l ++ [c]) acc =
      match parseUintDigits l acc with
      | UintResult.ok m => parseUintDigits [c] m
      | UintResult.badSyntax => UintResult.badSyntax
      | UintResult.outOfRange => UintResult.outOfRange := by
  induction l generalizing acc with
  | nil => rfl
  | cons x xs ih =>
    simp only [List.cons_append, parseUintDigits]
    cases digitVal x with
    | none => rfl
    | some d =>
      simp only
      split
      · rfl
      · split
        · rfl
        · exact ih _

theorem parseUintDigits_reverse (ds : List Nat) (h : ∀ d ∈ ds, d < 10)
    (hmax : evalRev ds ≤ maxUint64) :
    parseUintDigits ((ds.reverse).map digitChar) 0 = UintResult.ok (evalRev ds) := by
  induction ds with
  | nil => rfl
  | cons d ds ih =>
    have hd : d < 10 := h d (List.mem_cons_self _ _)
    have hds : ∀ x ∈ ds, x < 10 := fun x hx => h x (List.mem_cons_of_mem _ hx)
    simp only [evalRev] at hmax
    unfold maxUint64 at hmax
    have hprev : evalRev ds ≤ maxUint64 := by unfold maxUint64; omega
    rw [List.reverse_cons, List.map_append, List.map_singleton, parseUintDigits_snoc,
      ih hds hprev]
    simp only [parseUintDigits, digitVal_digitChar d hd, maxUint64]
    rw [if_neg (by omega), if_neg (by omega)]
    simp only [evalRev]
    congr 1
    omega

theorem ParseUint_formatNat (n : Nat) (h : n ≤ maxUint64) :
    ParseUint (formatNat n) = UintResult.ok n := by
  unfold ParseUint
  rw [if_neg (formatNat_ne_nil n)]
  have he := evalRev_decimalRev (n + 1) n (Nat.lt_succ_self n)
  unfold formatNat
  rw [parseUintDigits_reverse _ (decimalRev_lt _ _) (by rw [he]; exact h), he]

theorem Atoi_Itoa (i : Int) (hlo : minInt64 ≤ i) (hhi : i ≤ maxInt64) : Atoi (Itoa i) = i := by
  unfold minInt64 at hlo
  unfold maxInt64 at hhi
  cases i with
  | ofNat n =>
    rw [Int.ofNat_eq_coe] at hlo hhi
    have hm := formatNat_digits n
    have hu := ParseUint_formatNat n (by unfold maxUint64; omega)
    cases hf : formatNat n with
    | nil => exact absurd hf (formatNat_ne_nil n)
    | cons c cs =>
      rw [hf] at hm hu
      obtain ⟨d, hd, rfl⟩ := hm c (List.mem_cons_self _ _)
      have hs := digitChar_ne_sign d hd
      have hn : ¬ (n ≥ 9223372036854775808) := by omega
      simp only [Atoi, Itoa, hf, hs.1, hs.2, or_self, if_false, hu, decide_False,
        Bool.false_eq_true, hn]
  | negSucc n =>
    rw [Int.negSucc_eq] at hlo hhi
    have hu := ParseUint_formatNat (n + 1) (by unfold maxUint64; omega)
    have hn : ¬ (n + 1 > 9223372036854775808) := by omega
    simp only [Atoi, Itoa, or_true, if_true, hu, decide_True, hn, if_false]
    rfl

/-! ## The limiter on a single request -/

theorem Itoa_ne_empty (i : Int) : Itoa i ≠ "" := by
  intro h
  have hd := congrArg String.data h
  cases i with
  | ofNat n => exact formatNat_ne_nil n hd
  | negSucc n => simp [Itoa] at hd

theorem string2ll_Itoa (i : Int) (hlo : minInt64 ≤ i) (hhi : i ≤ maxInt64) :
    string2ll (Itoa i) = some i := by
  unfold string2ll
  rw [parseInt_Itoa]
  simp [hlo, hhi]

theorem rateLimit_fresh (next : Handler) (r : Request) (a : App) (t : String)
    (hr : Context.Value r.ctx "tenant_id" = some (CtxValue.str t))
    (hok : ∀ c, a.Redis.fails c = false)
    (hkv : a.Redis.kv (rateLimitKey t) = none) :
    rateLimitMiddleware next r a
      = next r { a with Redis := a.Redis.afterFirst (rateLimitKey t) } := by
  simp [rateLimitMiddleware, hr, Redis.Get, Redis.SetEX, hok, hkv, Redis.afterFirst]

theorem rateLimit_incr (next : Handler) (r : Request) (a : App) (t : String) (c : Int)
    (ttl : Option Nat)
    (hr : Context.Value r.ctx "tenant_id" = some (CtxValue.str t))
    (hok : ∀ c, a.Redis.fails c = false)
    (hkv : a.Redis.kv (rateLimitKey t) = some ⟨Itoa c, ttl⟩)
    (hc0 : c ≠ 0) (hlo : minInt64 ≤ c) (hc : c < 100) :
    rateLimitMiddleware next r a
      = next r { a with Redis := a.Redis.afterIncr (rateLimitKey t) c ttl } := by
  have hhi : c ≤ maxInt64 := by unfold maxInt64; omega
  have hne : c ≠ maxInt64 := by unfold maxInt64; omega
  simp [rateLimitMiddleware, hr, Redis.Get, Redis.Incr, hok, hkv, Redis.afterIncr,
    Itoa_ne_empty, Atoi_Itoa c hlo hhi, string2ll_Itoa c hlo hhi, hc0, hne, hc]

theorem rateLimit_full (next : Handler) (r : Request) (a : App) (t : String) (c : Int)
    (ttl : Option Nat)
    (hr : Context.Value r.ctx "tenant_id" = some (CtxValue.str t))
    (hok : ∀ c, a.Redis.fails c = false)
    (hkv : a.Redis.kv (rateLimitKey t) = some ⟨Itoa c, ttl⟩)
    (hc : 100 ≤ c) (hhi : c ≤ maxInt64) :
    rateLimitMiddleware next r a
      = { calls := httpError "Rate limit exceeded" 429,
          app := { a with Redis :=
            { a.Redis with log := a.Redis.log ++ [RedisCmd.get (rateLimitKey t)] } },
          panicked := false } := by
  have hlo : minInt64 ≤ c := by unfold minInt64; omega
  simp [rateLimitMiddleware, hr, Redis.Get, hok, hkv,
    Itoa_ne_empty, Atoi_Itoa c hlo hhi, hc]

/-! ## Sequential requests of one tenant -/

/-- A request of the tenant arriving at count `c < 100` is handed to the next handler,
with the counter at `c + 1`. -/
theorem rateLimit_admits_at (t : String) (next : Handler) (r : Request) (a : App) (c : Nat)
    (hr : Context.Value r.ctx "tenant_id" = some (CtxValue.str t))
    (hc : CounterAt (rateLimitKey t) a.Redis c) (hlt : c < 100) :
    ∃ s1 : Redis, rateLimitMiddleware next r a = next r { a with Redis := s1 }
      ∧ CounterAt (rateLimitKey t) s1 (c + 1) := by
  obtain ⟨hok, h0, hpos⟩ := hc
  rcases Nat.eq_zero_or_pos c with hc0 | hcpos
  · refine ⟨_, rateLimit_fresh next r a t hr hok (h0 hc0), hok, fun h => absurd h (by omega),
      fun _ => ?_⟩
    subst hc0
    simp [Redis.afterFirst]
  · refine ⟨_, rateLimit_incr next r a t (c : Int) (some 60) hr hok (hpos hcpos) (by omega)
      (by unfold minInt64; omega) (by omega), hok, fun h => absurd h (by omega), fun _ => ?_⟩
    simp [Redis.afterIncr]

theorem serveSeq_counts (t : String) (reqs : List (Handler × Request)) (a : App) (c : Nat)
    (hreqs : ∀ p ∈ reqs, RunOf t p)
    (hc : CounterAt (rateLimitKey t) a.Redis c) (hle : c + reqs.length ≤ 100) :
    CounterAt (rateLimitKey t) (serveSeq reqs a).Redis (c + reqs.length) := by
  induction reqs generalizing a c with
  | nil => exact hc
  | cons p rest ih =>
    obtain ⟨next, r⟩ := p
    obtain ⟨hr, hnext⟩ := hreqs (next, r) (List.mem_cons_self _ _)
    simp only [List.length_cons] at hle
    obtain ⟨s1, h1, h2⟩ := rateLimit_admits_at t next r a c hr hc (by omega)
    have h3 : CounterAt (rateLimitKey t) (rateLimitMiddleware next r a).app.Redis (c + 1) := by
      rw [h1, hnext]
      exact h2
    have h4 := ih (rateLimitMiddleware next r a).app (c + 1)
      (fun q hq => hreqs q (List.mem_cons_of_mem _ hq)) h3 (by omega)
    have h5 : c + (rest.length + 1) = c + 1 + rest.length := by omega
    simp only [List.length_cons, serveSeq]
    rw [h5]
    exact h4

/-- C2: take any requests of one tenant served one after the other by
`rateLimitMiddleware`, from a fresh window (key absent, no store errors, no expiry).
After fewer than 100 of them the next request of the tenant is handed to its next
handler, with the counter one higher; after exactly 100 of them the next request is
answered 429 whatever its next handler is, and the counter stays at 100. So the first
100 runs are admitted and the 101st is rejected. -/
theorem rateLimit_admits_100_then_429 (t : String) (reqs : List (Handler × Request)) (a : App)
    (hreqs : ∀ p ∈ reqs, RunOf t p)
    (hfresh : a.Redis.kv (rateLimitKey t) = none)
    (hok : ∀ c, a.Redis.fails c = false) :
    (reqs.length < 100 →
      ∀ (next : Handler) (r : Request),
        Context.Value r.ctx "tenant_id" = some (CtxValue.str t) →
        ∃ s1 : Redis,
          rateLimitMiddleware next r (serveSeq reqs a)
            = next r { serveSeq reqs a with Redis := s1 }
          ∧ s1.kv (rateLimitKey t) = some ⟨Itoa ((reqs.length : Int) + 1), some 60⟩)
    ∧ (reqs.length = 100 →
      ∀ (next : Handler) (r : Request),
        Context.Value r.ctx "tenant_id" = some (CtxValue.str t) →
        (rateLimitMiddleware next r (serveSeq reqs a)).calls
            = httpError "Rate limit exceeded" 429
          ∧ (rateLimitMiddleware next r (serveSeq reqs a)).panicked = false
          ∧ (rateLimitMiddleware next r (serveSeq reqs a)).status = some 429
          ∧ (rateLimitMiddleware next r (serveSeq reqs a)).app.Redis.kv
              = (serveSeq reqs a).Redis.kv
          ∧ (serveSeq reqs a).Redis.kv (rateLimitKey t) = some ⟨Itoa 100, some 60⟩) := by
  have h0 : CounterAt (rateLimitKey t) a.Redis 0 :=
    ⟨hok, fun _ => hfresh, fun h => absurd h (by omega)⟩
  constructor
  · intro hlen next r hr
    have hc := serveSeq_counts t reqs a 0 hreqs h0 (by omega)
    rw [Nat.zero_add] at hc
    obtain ⟨s1, h1, h2⟩ := rateLimit_admits_at t next r (serveSeq reqs a) reqs.length hr hc hlen
    refine ⟨s1, h1, ?_⟩
    have := h2.2.2 (by omega)
    simpa using this
  · intro hlen next r hr
    have hc := serveSeq_counts t reqs a 0 hreqs h0 (by omega)
    rw [Nat.zero_add, hlen] at hc
    obtain ⟨cok, _, cpos⟩ := hc
    have hkv := cpos (by omega)
    have h := rateLimit_full next r (serveSeq reqs a) t (100 : Int) (some 60) hr cok hkv
      (by omega) (by unfold maxInt64; omega)
    rw [h]
    exact ⟨rfl, rfl, rfl, rfl, hkv⟩

/-- Witness of C2: the request of the repository's test, 100 times and once more, on an
empty store. -/
theorem rateLimit_admits_100_then_429_witness :
    (List.replicate 100 (nextHandler, tenantRequest)).length = 100
    ∧ freshApp.Redis.kv (rateLimitKey "test-tenant") = none
    ∧ (rateLimitMiddleware nextHandler tenantRequest
        (serveSeq (List.replicate 100 (nextHandler, tenantRequest)) freshApp)).status
          = some 429 :=
  ⟨List.length_replicate _ _, rfl,
    ((rateLimit_admits_100_then_429 "test-tenant"
      (List.replicate 100 (nextHandler, tenantRequest)) freshApp
      (fun p hp => by
        rw [(List.mem_replicate.mp hp).2]
        exact ⟨rfl, fun _ _ => rfl⟩)
      rfl (fun _ => rfl)).2 (List.length_replicate _ _) nextHandler tenantRequest rfl).2.2.1⟩

/-! ## Quota isolation between tenants -/

theorem rateLimitKey_injective (t1 t2 : String) (h : rateLimitKey t1 = rateLimitKey t2) :
    t1 = t2 := by
  unfold rateLimitKey at h
  have hd := congrArg String.data h
  rw [String.data_append, String.data_append] at hd
  exact String.ext (List.append_cancel_left hd)

theorem Redis.Get_frame (s : Redis) (key : String) :
    (s.Get key).2.kv = s.kv ∧ (s.Get key).2.fails = s.fails
      ∧ (s.Get key).2.log = s.log ++ [RedisCmd.get key] := by
  unfold Redis.Get
  split
  · exact ⟨rfl, rfl, rfl⟩
  · split <;> exact ⟨rfl, rfl, rfl⟩

theorem Redis.SetEX_frame (s : Redis) (key value : String) (ttl : Nat) :
    (∀ k, k ≠ key → (s.SetEX key value ttl).2.kv k = s.kv k)
      ∧ (s.SetEX key value ttl).2.fails = s.fails
      ∧ (s.SetEX key value ttl).2.log = s.log ++ [RedisCmd.setex key value ttl] := by
  unfold Redis.SetEX
  split
  · exact ⟨fun _ _ => rfl, rfl, rfl⟩
  · exact ⟨fun k hk => Function.update_noteq hk _ _, rfl, rfl⟩

theorem Redis.Incr_frame (s : Redis) (key : String) :
    (∀ k, k ≠ key → (s.Incr key).2.kv k = s.kv k)
      ∧ (s.Incr key).2.fails = s.fails
      ∧ (s.Incr key).2.log = s.log ++ [RedisCmd.incr key] := by
  unfold Redis.Incr
  split
  · exact ⟨fun _ _ => rfl, rfl, rfl⟩
  · split
    · exact ⟨fun k hk => Function.update_noteq hk _ _, rfl, rfl⟩
    · split
      · exact ⟨fun _ _ => rfl, rfl, rfl⟩
      · split
        · exact ⟨fun _ _ => rfl, rfl, rfl⟩
        · exact ⟨fun k hk => Function.update_noteq hk _ _, rfl, rfl⟩

/-- What a run of the limiter for tenant `t` does to the store, when the next handler
leaves the store alone: other keys keep their entries, the failure pattern stays, and
every command it sends addresses the key of `t`. -/
theorem rateLimit_frame (next : Handler) (r : Request) (a : App) (t : String)
    (hr : Context.Value r.ctx "tenant_id" = some (CtxValue.str t))
    (hnext : ∀ r1 a1, (next r1 a1).app.Redis = a1.Redis) :
    (∀ k, k ≠ rateLimitKey t → (rateLimitMiddleware next r a).app.Redis.kv k = a.Redis.kv k)
      ∧ (rateLimitMiddleware next r a).app.Redis.fails = a.Redis.fails
      ∧ ∃ cmds, (rateLimitMiddleware next r a).app.Redis.log = a.Redis.log ++ cmds
          ∧ ∀ c ∈ cmds, RedisCmd.key c = rateLimitKey t := by
  obtain ⟨g1, g2, g3⟩ := Redis.Get_frame a.Redis (rateLimitKey t)
  have hget : ∀ c ∈ [RedisCmd.get (rateLimitKey t)], RedisCmd.key c = rateLimitKey t := by
    intro c hc
    rw [List.mem_singleton.mp hc]
    rfl
  unfold rateLimitMiddleware
  simp only [hr]
  by_cases h1 : ((a.Redis.Get (rateLimitKey t)).1.2 ≠ RedisErr.none
      ∧ (a.Redis.Get (rateLimitKey t)).1.2 ≠ RedisErr.Nil)
  · rw [if_pos h1]
    exact ⟨fun k _ => by rw [g1], g2, _, g3, hget⟩
  · rw [if_neg h1]
    generalize (if (a.Redis.Get (rateLimitKey t)).1.1 ≠ "" then
      Atoi (a.Redis.Get (rateLimitKey t)).1.1 else 0) = count
    by_cases h2 : count ≥ 100
    · rw [if_pos h2]
      exact ⟨fun k _ => by rw [g1], g2, _, g3, hget⟩
    · rw [if_neg h2, hnext]
      by_cases h3 : count = 0
      · simp only [if_pos h3]
        obtain ⟨s1, s2, s3⟩ :=
          Redis.SetEX_frame (a.Redis.Get (rateLimitKey t)).2 (rateLimitKey t) (Itoa 1) 60
        refine ⟨fun k hk => by rw [s1 k hk, g1], by rw [s2, g2],
          [RedisCmd.get (rateLimitKey t), RedisCmd.setex (rateLimitKey t) (Itoa 1) 60],
          by rw [s3, g3, List.append_assoc]; rfl, ?_⟩
        intro c hc
        simp only [List.mem_cons, List.mem_singleton, List.not_mem_nil, or_false] at hc
        rcases hc with hc | hc <;> rw [hc] <;> rfl
      · simp only [if_neg h3]
        obtain ⟨s1, s2, s3⟩ :=
          Redis.Incr_frame (a.Redis.Get (rateLimitKey t)).2 (rateLimitKey t)
        refine ⟨fun k hk => by rw [s1 k hk, g1], by rw [s2, g2],
          [RedisCmd.get (rateLimitKey t), RedisCmd.incr (rateLimitKey t)],
          by rw [s3, g3, List.append_assoc]; rfl, ?_⟩
        intro c hc
        simp only [List.mem_cons, List.mem_singleton, List.not_mem_nil, or_false] at hc
        rcases hc with hc | hc <;> rw [hc] <;> rfl

theorem Redis.Get_congr (s1 s2 : Redis) (key : String)
    (hkv : s1.kv key = s2.kv key) (hf : s1.fails = s2.fails) :
    (s1.Get key).1 = (s2.Get key).1 := by
  unfold Redis.Get
  rw [hf, hkv]
  split
  · rfl
  · split <;> rfl

/-- The answer of the limiter to a request of tenant `t`, with the test's next handler,
is a function of the entry stored at the key of `t` and of the failure pattern. -/
theorem rateLimit_decision_congr (r : Request) (a b : App) (t : String)
    (hr : Context.Value r.ctx "tenant_id" = some (CtxValue.str t))
    (hkv : a.Redis.kv (rateLimitKey t) = b.Redis.kv (rateLimitKey t))
    (hf : a.Redis.fails = b.Redis.fails) :
    (rateLimitMiddleware nextHandler r a).calls = (rateLimitMiddleware nextHandler r b).calls
      ∧ (rateLimitMiddleware nextHandler r a).panicked
          = (rateLimitMiddleware nextHandler r b).panicked := by
  have hg := Redis.Get_congr a.Redis b.Redis (rateLimitKey t) hkv hf
  unfold rateLimitMiddleware
  simp only [hr, hg]
  by_cases h1 : ((b.Redis.Get (rateLimitKey t)).1.2 ≠ RedisErr.none
      ∧ (b.Redis.Get (rateLimitKey t)).1.2 ≠ RedisErr.Nil)
  · rw [if_pos h1, if_pos h1]
    exact ⟨rfl, rfl⟩
  · rw [if_neg h1, if_neg h1]
    generalize (if (b.Redis.Get (rateLimitKey t)).1.1 ≠ "" then
      Atoi (b.Redis.Get (rateLimitKey t)).1.1 else 0) = count
    by_cases h2 : count ≥ 100
    · rw [if_pos h2, if_pos h2]
      exact ⟨rfl, rfl⟩
    · rw [if_neg h2, if_neg h2]
      exact ⟨rfl, rfl⟩

theorem serveSeq_frame (t : String) (reqs : List (Handler × Request)) (a : App)
    (hreqs : ∀ p ∈ reqs, RunOf t p) :
    (∀ k, k ≠ rateLimitKey t → (serveSeq reqs a).Redis.kv k = a.Redis.kv k)
      ∧ (serveSeq reqs a).Redis.fails = a.Redis.fails := by
  induction reqs generalizing a with
  | nil => exact ⟨fun _ _ => rfl, rfl⟩
  | cons p rest ih =>
    obtain ⟨next, r⟩ := p
    obtain ⟨hr, hnext⟩ := hreqs (next, r) (List.mem_cons_self _ _)
    obtain ⟨f1, f2, _⟩ := rateLimit_frame next r a t hr hnext
    obtain ⟨i1, i2⟩ := ih (rateLimitMiddleware next r a).app
      (fun q hq => hreqs q (List.mem_cons_of_mem _ hq))
    simp only [serveSeq]
    exact ⟨fun k hk => by rw [i1 k hk, f1 k hk], by rw [i2, f2]⟩

/-- C10: a run of `rateLimitMiddleware` for tenant `t1` sends the store only commands on
the key of `t1`, its answer depends on the store only through that key, and it leaves
every other key, the key of any other tenant `t2` included, with the same value and
expiry; so the answer to a request of `t2` is the same after any sequence of requests of
`t1`, however many. -/
theorem rateLimit_tenant_isolation (t1 t2 : String) (hne : t1 ≠ t2) (next : Handler)
    (r : Request) (a : App)
    (hr : Context.Value r.ctx "tenant_id" = some (CtxValue.str t1))
    (hnext : ∀ r1 a1, (next r1 a1).app.Redis = a1.Redis) :
    (∃ cmds, (rateLimitMiddleware next r a).app.Redis.log = a.Redis.log ++ cmds
        ∧ ∀ c ∈ cmds, RedisCmd.key c = rateLimitKey t1)
    ∧ (∀ b : App, b.Redis.kv (rateLimitKey t1) = a.Redis.kv (rateLimitKey t1) →
        b.Redis.fails = a.Redis.fails →
        (rateLimitMiddleware nextHandler r b).calls = (rateLimitMiddleware nextHandler r a).calls)
    ∧ (∀ k, k ≠ rateLimitKey t1 → (rateLimitMiddleware next r a).app.Redis.kv k = a.Redis.kv k)
    ∧ (rateLimitMiddleware next r a).app.Redis.kv (rateLimitKey t2) = a.Redis.kv (rateLimitKey t2)
    ∧ (∀ (reqs : List (Handler × Request)) (r2 : Request),
        (∀ p ∈ reqs, RunOf t1 p) →
        Context.Value r2.ctx "tenant_id" = some (CtxValue.str t2) →
        (rateLimitMiddleware nextHandler r2 (serveSeq reqs a)).calls
            = (rateLimitMiddleware nextHandler r2 a).calls
          ∧ (rateLimitMiddleware nextHandler r2 (serveSeq reqs a)).status
            = (rateLimitMiddleware nextHandler r2 a).status) := by
  have hkey : rateLimitKey t2 ≠ rateLimitKey t1 :=
    fun h => hne (rateLimitKey_injective t2 t1 h).symm
  obtain ⟨f1, _, f3⟩ := rateLimit_frame next r a t1 hr hnext
  refine ⟨f3, ?_, f1, f1 _ hkey, ?_⟩
  · intro b hkv hf
    exact (rateLimit_decision_congr r b a t1 hr hkv hf).1
  · intro reqs r2 hreqs hr2
    obtain ⟨g1, g2⟩ := serveSeq_frame t1 reqs a hreqs
    obtain ⟨c1, c2⟩ := rateLimit_decision_congr r2 (serveSeq reqs a) a t2 hr2 (g1 _ hkey) g2
    refine ⟨c1, ?_⟩
    unfold Outcome.status
    rw [c1, c2]

/-- Witness of C10: the test's tenant and another one, on an empty store. -/
theorem rateLimit_tenant_isolation_witness :
    "test-tenant" ≠ "other"
    ∧ Context.Value tenantRequest.ctx "tenant_id" = some (CtxValue.str "test-tenant")
    ∧ (rateLimitMiddleware nextHandler tenantRequest freshApp).app.Redis.kv (rateLimitKey "other")
        = freshApp.Redis.kv (rateLimitKey "other") :=
  ⟨by decide, rfl,
    (rateLimit_tenant_isolation "test-tenant" "other" (by decide) nextHandler tenantRequest
      freshApp rfl (fun _ _ => rfl)).2.2.2.1⟩

/-! ## Tenant identity: binding and retrieval -/

theorem tenantMiddleware_valid (parse : String → ParsedToken) (next : Handler) (r : Request)
    (a : App)
    (h1 : headerGet r.Header "Authorization" ≠ "")
    (h2 : TrimPrefix (headerGet r.Header "Authorization") "Bearer "
      ≠ headerGet r.Header "Authorization")
    (h3 : (parse (TrimPrefix (headerGet r.Header "Authorization") "Bearer ")).errNil = true)
    (h4 : (parse (TrimPrefix (headerGet r.Header "Authorization") "Bearer ")).Valid = true) :
    tenantMiddleware parse next r a
      = next (r.WithContext (Context.WithValue r.ctx "tenant_id" (CtxValue.str
          (parse (TrimPrefix (headerGet r.Header "Authorization") "Bearer ")).claims.TenantID))) a := by
  unfold tenantMiddleware
  simp only [h1, h2, h3, h4, if_false, Bool.not_true, Bool.or_self, Bool.false_eq_true]

theorem getTenantID_bound (r : Request) (s : String) :
    getTenantID (r.WithContext (Context.WithValue r.ctx "tenant_id" (CtxValue.str s))) = s := by
  simp [getTenantID, Request.WithContext, Context.WithValue, Context.Value]

/-- C9: `getTenantID` returns the string bound to `"tenant_id"`, whatever was bound
before, and `""` when nothing or a non-string is bound; and for a request whose token
verifies, `tenantMiddleware` calls the next handler with a request on which
`getTenantID` is the token's `tenant_id` claim. -/
theorem getTenantID_roundtrip :
    (∀ (r : Request) (s : String),
      getTenantID (r.WithContext (Context.WithValue r.ctx "tenant_id" (CtxValue.str s))) = s)
    ∧ (∀ r : Request, Context.Value r.ctx "tenant_id" = none → getTenantID r = "")
    ∧ (∀ (r : Request) (tag : Nat),
        Context.Value r.ctx "tenant_id" = some (CtxValue.other tag) → getTenantID r = "")
    ∧ (∀ (parse : String → ParsedToken) (next : Handler) (r : Request) (a : App),
        headerGet r.Header "Authorization" ≠ "" →
        TrimPrefix (headerGet r.Header "Authorization") "Bearer "
          ≠ headerGet r.Header "Authorization" →
        (parse (TrimPrefix (headerGet r.Header "Authorization") "Bearer ")).errNil = true →
        (parse (TrimPrefix (headerGet r.Header "Authorization") "Bearer ")).Valid = true →
        ∃ r1 : Request, tenantMiddleware parse next r a = next r1 a
          ∧ getTenantID r1
            = (parse (TrimPrefix (headerGet r.Header "Authorization") "Bearer ")).claims.TenantID) := by
  refine ⟨getTenantID_bound, ?_, ?_, ?_⟩
  · intro r h
    simp [getTenantID, h]
  · intro r tag h
    simp [getTenantID, h]
  · intro parse next r a h1 h2 h3 h4
    exact ⟨_, tenantMiddleware_valid parse next r a h1 h2 h3 h4, getTenantID_bound r _⟩

/-- Witness of C9: the test's binding of `"test-tenant"`, and a bearer request whose
token decodes to tenant `"t1"`. -/
theorem getTenantID_roundtrip_witness :
    getTenantID tenantRequest = "test-tenant"
    ∧ (∃ r1 : Request, tenantMiddleware parseTenantT1 nextHandler bearerRequest freshApp
          = nextHandler r1 freshApp ∧ getTenantID r1 = "t1") :=
  ⟨getTenantID_roundtrip.1 { tenantRequest with ctx := [] } "test-tenant",
    getTenantID_roundtrip.2.2.2 parseTenantT1 nextHandler bearerRequest freshApp
      (by decide) (by decide) rfl rfl⟩

/-! ## Verified tokens without a tenant -/

/-- C7, as the code has it: a verified token whose `tenant_id` claim is absent or empty
is not rejected by `tenantMiddleware`; the empty string is bound as tenant identity and
the next handler is called. The guard sits in the protected handlers, which answer 500
`Tenant ID not found` for such a request without reaching the database. -/
theorem tenantMiddleware_empty_tenant (parse : String → ParsedToken) (next : Handler)
    (r : Request) (a : App)
    (h1 : headerGet r.Header "Authorization" ≠ "")
    (h2 : TrimPrefix (headerGet r.Header "Authorization") "Bearer "
      ≠ headerGet r.Header "Authorization")
    (h3 : (parse (TrimPrefix (headerGet r.Header "Authorization") "Bearer ")).errNil = true)
    (h4 : (parse (TrimPrefix (headerGet r.Header "Authorization") "Bearer ")).Valid = true)
    (h5 : (parse (TrimPrefix (headerGet r.Header "Authorization") "Bearer ")).claims.TenantID = "") :
    tenantMiddleware parse next r a
      = next (r.WithContext (Context.WithValue r.ctx "tenant_id" (CtxValue.str ""))) a
    ∧ (∀ (query : String → Handler) (a1 : App),
        getDataHandler query
            (r.WithContext (Context.WithValue r.ctx "tenant_id" (CtxValue.str ""))) a1
          = { calls := httpError "Tenant ID not found" 500, app := a1, panicked := false })
    ∧ (∀ (insert : String → Handler) (a1 : App),
        createUserHandler insert
            (r.WithContext (Context.WithValue r.ctx "tenant_id" (CtxValue.str ""))) a1
          = { calls := httpError "Tenant ID not found" 500, app := a1, panicked := false }) := by
  refine ⟨?_, ?_, ?_⟩
  · rw [tenantMiddleware_valid parse next r a h1 h2 h3 h4, h5]
  · intro query a1
    simp [getDataHandler, getTenantID_bound]
  · intro insert a1
    simp [createUserHandler, getTenantID_bound]

/-- Witness of C7 as amended: a bearer request whose verified token has no tenant. -/
theorem tenantMiddleware_empty_tenant_witness :
    (parseEmptyTenant (TrimPrefix (headerGet bearerRequest.Header "Authorization") "Bearer ")).claims.TenantID = ""
    ∧ (tenantMiddleware parseEmptyTenant (getDataHandler (fun _ => nextHandler)) bearerRequest
        freshApp).status = some 500 :=
  ⟨rfl, by
    rw [(tenantMiddleware_empty_tenant parseEmptyTenant (getDataHandler (fun _ => nextHandler))
      bearerRequest freshApp (by decide) (by decide) rfl rfl rfl).1]
    rfl⟩

/-- Counterexample to C7 as stated: the token of this request passes verification and
carries no tenant, yet the next handler runs (its 200 is the answer) and the identity it
sees is the empty string; the answer is not 401. -/
theorem tenantMiddleware_empty_tenant_passes :
    (parseEmptyTenant "token").errNil = true
    ∧ (parseEmptyTenant "token").Valid = true
    ∧ (parseEmptyTenant "token").claims.TenantID = ""
    ∧ TrimPrefix (headerGet bearerRequest.Header "Authorization") "Bearer " = "token"
    ∧ (tenantMiddleware parseEmptyTenant nextHandler bearerRequest freshApp).calls
        = [WriterCall.WriteHeader 200]
    ∧ (tenantMiddleware parseEmptyTenant nextHandler bearerRequest freshApp).status = some 200
    ∧ (tenantMiddleware parseEmptyTenant nextHandler bearerRequest freshApp).status ≠ some 401
    ∧ (tenantMiddleware parseEmptyTenant panicHandler bearerRequest freshApp).panicked = true := by
  refine ⟨rfl, rfl, rfl, by decide, by decide, by decide, by decide, by decide⟩

/-! ## Status capture and metrics emission -/

theorem responseWriter_serve_forwards (rw : responseWriter) (calls : List WriterCall) :
    (responseWriter.serve rw calls).2 = calls := by
  induction calls generalizing rw with
  | nil => rfl
  | cons c cs ih =>
    cases c <;> simp [responseWriter.serve, responseWriter.call, responseWriter.WriteHeader, ih]

theorem metricsMiddleware_calls (next : Handler) (r : Request) (a : App) :
    (metricsMiddleware next r a).calls
      = (next r { a with ActiveRequests := a.ActiveRequests + 1 }).calls := by
  unfold metricsMiddleware
  simp only
  split <;> exact responseWriter_serve_forwards _ _

/-- C5 at its failing input: the wrapper passes every call on unchanged, so the caller
receives what it would without the wrapper; but for a downstream handler that calls
`WriteHeader(404)` and then `WriteHeader(500)` the caller receives 404 while both
metrics are labelled `"500"`. -/
theorem metrics_label_is_last_WriteHeader :
    (∀ (rw : responseWriter) (calls : List WriterCall), (responseWriter.serve rw calls).2 = calls)
    ∧ (∀ (next : Handler) (r : Request) (a : App),
        (metricsMiddleware next r a).calls
          = (next r { a with ActiveRequests := a.ActiveRequests + 1 }).calls)
    ∧ (metricsMiddleware twoHeadersHandler healthRequest freshApp).status = some 404
    ∧ (metricsMiddleware twoHeadersHandler healthRequest freshApp).app.RequestCounter
        = [{ path := "/health", method := "GET", status := "500" }]
    ∧ (metricsMiddleware twoHeadersHandler healthRequest freshApp).app.RequestDuration
        = [({ path := "/health", method := "GET", status := "500" }, 0)] := by
  refine ⟨responseWriter_serve_forwards, metricsMiddleware_calls, by decide, by decide, by decide⟩

/-- C6, as the code has it: around the wrapped chain the gauge is incremented once
before and decremented once after, on return and on panic alike, so it is back at its
prior value whenever the chain itself leaves it alone; a panic is passed on; and when the
chain returns (normally, with a 401 or 429 short-circuit, or with a handler error
response) exactly one duration observation and exactly one counter increment are added,
labelled with the path, the method and the captured status. -/
theorem metrics_gauge_and_emission (next : Handler) (r : Request) (a : App) :
    (metricsMiddleware next r a).app.ActiveRequests
        = (next r { a with ActiveRequests := a.ActiveRequests + 1 }).app.ActiveRequests - 1
    ∧ ((next r { a with ActiveRequests := a.ActiveRequests + 1 }).app.ActiveRequests
          = a.ActiveRequests + 1 →
        (metricsMiddleware next r a).app.ActiveRequests = a.ActiveRequests)
    ∧ (metricsMiddleware next r a).panicked
        = (next r { a with ActiveRequests := a.ActiveRequests + 1 }).panicked
    ∧ ((next r { a with ActiveRequests := a.ActiveRequests + 1 }).panicked = false →
        (metricsMiddleware next r a).app.RequestDuration
            = (next r { a with ActiveRequests := a.ActiveRequests + 1 }).app.RequestDuration
              ++ [({ path := r.Path, method := r.Method,
                     status := Itoa (responseWriter.serve { statusCode := 200 }
                       (next r { a with ActiveRequests := a.ActiveRequests + 1 }).calls).1.statusCode },
                   (next r { a with ActiveRequests := a.ActiveRequests + 1 }).app.now - a.now)]
          ∧ (metricsMiddleware next r a).app.RequestCounter
            = (next r { a with ActiveRequests := a.ActiveRequests + 1 }).app.RequestCounter
              ++ [{ path := r.Path, method := r.Method,
                    status := Itoa (responseWriter.serve { statusCode := 200 }
                      (next r { a with ActiveRequests := a.ActiveRequests + 1 }).calls).1.statusCode }]) := by
  have hgauge : (metricsMiddleware next r a).app.ActiveRequests
      = (next r { a with ActiveRequests := a.ActiveRequests + 1 }).app.ActiveRequests - 1 := by
    unfold metricsMiddleware
    simp only
    split <;> rfl
  refine ⟨hgauge, ?_, ?_, ?_⟩
  · intro h
    rw [hgauge, h]
    omega
  · unfold metricsMiddleware
    simp only
    split
    · next h => rw [h]
    · next h => simp only [Bool.not_eq_true] at h; rw [h]
  · intro h
    simp [metricsMiddleware, h]

/-- Witness of C6 as amended: the 401 short-circuit of `tenantMiddleware` under the
metrics middleware leaves the gauge where it was and adds one increment labelled 401. -/
theorem metrics_gauge_and_emission_witness :
    (metricsMiddleware (tenantMiddleware parseTenantT1 nextHandler) anonymousRequest
        freshApp).app.ActiveRequests = freshApp.ActiveRequests
    ∧ (metricsMiddleware (tenantMiddleware parseTenantT1 nextHandler) anonymousRequest
        freshApp).app.RequestCounter
        = [{ path := "/api/data", method := "GET", status := "401" }] :=
  ⟨(metrics_gauge_and_emission (tenantMiddleware parseTenantT1 nextHandler) anonymousRequest
      freshApp).2.1 rfl,
    ((metrics_gauge_and_emission (tenantMiddleware parseTenantT1 nextHandler) anonymousRequest
      freshApp).2.2.2 rfl).2⟩

/-- Counterexample to C6 as stated: when the wrapped chain panics (here the limiter, on a
request with no tenant bound) the gauge is restored and the panic passed on, but no
duration observation and no counter increment is made. -/
theorem metrics_no_emission_on_panic :
    (rateLimitMiddleware nextHandler anonymousRequest
        { freshApp with ActiveRequests := freshApp.ActiveRequests + 1 }).panicked = true
    ∧ (metricsMiddleware (rateLimitMiddleware nextHandler) anonymousRequest freshApp).panicked
        = true
    ∧ (metricsMiddleware (rateLimitMiddleware nextHandler) anonymousRequest
        freshApp).app.ActiveRequests = freshApp.ActiveRequests
    ∧ (metricsMiddleware (rateLimitMiddleware nextHandler) anonymousRequest
        freshApp).app.RequestDuration = []
    ∧ (metricsMiddleware (rateLimitMiddleware nextHandler) anonymousRequest
        freshApp).app.RequestCounter = [] := by
  refine ⟨by decide, by decide, by decide, by decide, by decide⟩

/-! ## Store errors -/

/-- C3 at its failing input: only an error of the `Get` is answered with 500. On a
server that refuses writes the `SetEX` (key absent) or the `Incr` (counter at 5) fails,
the error is dropped, the next handler runs and the counter is left as it was. -/
theorem rateLimit_admits_when_write_fails :
    (rateLimitMiddleware nextHandler tenantRequest { freshApp with Redis := downRedis }).status
        = some 500
    ∧ (readOnlyRedis.Get (rateLimitKey "test-tenant")).1 = ("", RedisErr.Nil)
    ∧ ((readOnlyRedis.Get (rateLimitKey "test-tenant")).2.SetEX (rateLimitKey "test-tenant")
        (Itoa 1) 60).1 = RedisErr.other
    ∧ (rateLimitMiddleware nextHandler tenantRequest readOnlyApp).calls
        = [WriterCall.WriteHeader 200]
    ∧ (rateLimitMiddleware nextHandler tenantRequest readOnlyApp).status = some 200
    ∧ (rateLimitMiddleware panicHandler tenantRequest readOnlyApp).panicked = true
    ∧ (rateLimitMiddleware nextHandler tenantRequest readOnlyApp).app.Redis.kv
        (rateLimitKey "test-tenant") = none
    ∧ (rateLimitMiddleware nextHandler tenantRequest readOnlyApp).app.Redis.log
        = [RedisCmd.get "rate_limit:test-tenant", RedisCmd.setex "rate_limit:test-tenant" "1" 60]
    ∧ ((readOnlyRedisAt5.Get (rateLimitKey "test-tenant")).2.Incr (rateLimitKey "test-tenant")).1.2
        = RedisErr.other
    ∧ (rateLimitMiddleware nextHandler tenantRequest
        { freshApp with Redis := readOnlyRedisAt5 }).status = some 200
    ∧ (rateLimitMiddleware nextHandler tenantRequest
        { freshApp with Redis := readOnlyRedisAt5 }).app.Redis.kv (rateLimitKey "test-tenant")
        = some ⟨"5", some 60⟩ := by
  refine ⟨by decide, by decide, by decide, by decide, by decide, by decide, by decide, by decide,
    by decide, by decide, by decide⟩

/-! ## The chain registered by `initialize` -/

theorem initializeApp_ok (deps : Deps) (h : deps.initDBErr = none) :
    initializeApp deps NewRouter = Except.ok
      { middlewares := [metricsMiddleware, rateLimitMiddleware,
          tenantMiddleware deps.ParseWithClaims],
        routes := [
          { tpl := "/metrics", isPathPrefix := true, methods := [], handler := deps.promHandler },
          { tpl := "/health", isPathPrefix := false, methods := ["GET"], handler := healthHandler },
          { tpl := "/api/data", isPathPrefix := false, methods := ["GET"],
            handler := getDataHandler deps.query },
          { tpl := "/api/users", isPathPrefix := false, methods := ["POST"],
            handler := createUserHandler deps.insert }] } := by
  unfold initializeApp
  rw [h]
  rfl

theorem rateLimit_panics_unbound (next : Handler) (r : Request) (a : App)
    (h : Context.Value r.ctx "tenant_id" = none) :
    rateLimitMiddleware next r a = { calls := [], app := a, panicked := true } := by
  unfold rateLimitMiddleware
  rw [h]

theorem metrics_of_panic (next : Handler) (r : Request) (a : App)
    (h : Context.Value r.ctx "tenant_id" = none) :
    metricsMiddleware (rateLimitMiddleware next) r a = { calls := [], app := a, panicked := true } := by
  have hp : ∀ a1 : App, rateLimitMiddleware next r a1 = { calls := [], app := a1, panicked := true } :=
    fun a1 => rateLimit_panics_unbound next r a1 h
  simp [metricsMiddleware, hp, responseWriter.serve]

/-- C1 at its failing inputs: on the router built by `initialize`, a request to
`GET /api/data` or `POST /api/users` with nothing bound under `"tenant_id"` (every request
the server receives, with or without an `Authorization` header) reaches
`rateLimitMiddleware` before `tenantMiddleware` and panics in its unchecked assertion:
nothing is written, the caller gets no status, and no store command is sent. -/
theorem protected_route_panics_unbound (deps : Deps) (r : Request) (a : App)
    (hinit : deps.initDBErr = none)
    (hroute : (r.Path = "/api/data" ∧ r.Method = "GET")
      ∨ (r.Path = "/api/users" ∧ r.Method = "POST"))
    (hctx : Context.Value r.ctx "tenant_id" = none) :
    ∃ h : Handler, server deps = some h
      ∧ (h r a).panicked = true
      ∧ (h r a).calls = []
      ∧ (h r a).status = none
      ∧ (h r a).status ≠ some 401
      ∧ (h r a).app.Redis.log = a.Redis.log
      ∧ (h r a).app.Redis.kv = a.Redis.kv := by
  refine ⟨_, by rw [server, initializeApp_ok deps hinit], ?_⟩
  have e1 : List.isPrefixOf "/metrics".data "/api/data".data = false := by decide
  have e2 : List.isPrefixOf "/metrics".data "/api/users".data = false := by decide
  have hserve : Router.ServeHTTP
      { middlewares := [metricsMiddleware, rateLimitMiddleware,
          tenantMiddleware deps.ParseWithClaims],
        routes := [
          { tpl := "/metrics", isPathPrefix := true, methods := [], handler := deps.promHandler },
          { tpl := "/health", isPathPrefix := false, methods := ["GET"], handler := healthHandler },
          { tpl := "/api/data", isPathPrefix := false, methods := ["GET"],
            handler := getDataHandler deps.query },
          { tpl := "/api/users", isPathPrefix := false, methods := ["POST"],
            handler := createUserHandler deps.insert }] } r a
      = { calls := [], app := a, panicked := true } := by
    rcases hroute with ⟨hp, hm⟩ | ⟨hp, hm⟩
    · simp [Router.ServeHTTP, matchRoutes, Route.matchesPath, Route.matchesMethod, hp, hm, e1,
        Router.wrap, metrics_of_panic _ r a hctx]
    · simp [Router.ServeHTTP, matchRoutes, Route.matchesPath, Route.matchesMethod, hp, hm, e2,
        Router.wrap, metrics_of_panic _ r a hctx]
  rw [hserve]
  exact ⟨rfl, rfl, rfl, by simp [Outcome.status], rfl, rfl⟩

/-- Witness of the evaluation for C1: `GET /api/data` without an `Authorization` header. -/
theorem protected_route_panics_unbound_witness :
    headerGet anonymousRequest.Header "Authorization" = ""
    ∧ Context.Value anonymousRequest.ctx "tenant_id" = none
    ∧ ∃ h : Handler, server sampleDeps = some h
      ∧ (h anonymousRequest freshApp).panicked = true
      ∧ (h anonymousRequest freshApp).calls = []
      ∧ (h anonymousRequest freshApp).status = none
      ∧ (h anonymousRequest freshApp).status ≠ some 401
      ∧ (h anonymousRequest freshApp).app.Redis.log = freshApp.Redis.log
      ∧ (h anonymousRequest freshApp).app.Redis.kv = freshApp.Redis.kv :=
  ⟨rfl, rfl, protected_route_panics_unbound sampleDeps anonymousRequest freshApp rfl
    (Or.inl ⟨rfl, rfl⟩) rfl⟩

/-! ## The health route -/

/-- C8 at its failing input: `healthHandler` called directly, as `TestHealthHandler`
calls it, answers with status 200 and exactly the body of the test and leaves the state
alone; but on the router built by `initialize` a `GET /health` with nothing bound under
`"tenant_id"` (every request the server receives, whatever its headers and whatever the
store holds) is served behind the registered middlewares, runs into
`rateLimitMiddleware` before `tenantMiddleware`, and panics there: `healthHandler` is
never reached, nothing is written and the caller gets no status. -/
theorem health_route_panics_unbound (deps : Deps) (r : Request) (a : App)
    (hinit : deps.initDBErr = none)
    (hpath : r.Path = "/health") (hmethod : r.Method = "GET")
    (hctx : Context.Value r.ctx "tenant_id" = none) :
    ((healthHandler r a).status = some 200
      ∧ (replay (healthHandler r a).calls).Body
          = "\x7b\"status\":\"success\",\"message\":\"API is running\"\x7d\n"
      ∧ (healthHandler r a).panicked = false
      ∧ (healthHandler r a).app = a)
    ∧ ∃ h : Handler, server deps = some h
      ∧ (h r a).panicked = true
      ∧ (h r a).calls = []
      ∧ (h r a).status = none
      ∧ (h r a).status ≠ some 200
      ∧ (replay (h r a).calls).Body = ""
      ∧ (h r a).app.Redis.log = a.Redis.log := by
  refine ⟨⟨rfl, rfl, rfl, rfl⟩, _, by rw [server, initializeApp_ok deps hinit], ?_⟩
  have e1 : List.isPrefixOf "/metrics".data "/health".data = false := by decide
  have hserve : Router.ServeHTTP
      { middlewares := [metricsMiddleware, rateLimitMiddleware,
          tenantMiddleware deps.ParseWithClaims],
        routes := [
          { tpl := "/metrics", isPathPrefix := true, methods := [], handler := deps.promHandler },
          { tpl := "/health", isPathPrefix := false, methods := ["GET"], handler := healthHandler },
          { tpl := "/api/data", isPathPrefix := false, methods := ["GET"],
            handler := getDataHandler deps.query },
          { tpl := "/api/users", isPathPrefix := false, methods := ["POST"],
            handler := createUserHandler deps.insert }] } r a
      = { calls := [], app := a, panicked := true } := by
    simp [Router.ServeHTTP, matchRoutes, Route.matchesPath, Route.matchesMethod, hpath, hmethod,
      e1, Router.wrap, metrics_of_panic _ r a hctx]
  rw [hserve]
  exact ⟨rfl, rfl, rfl, by simp [Outcome.status], rfl, rfl⟩

/-- Witness of the evaluation for C8: `GET /health` without an `Authorization` header,
on an empty store. -/
theorem health_route_panics_unbound_witness :
    healthRequest.Path = "/health"
    ∧ headerGet healthRequest.Header "Authorization" = ""
    ∧ Context.Value healthRequest.ctx "tenant_id" = none
    ∧ (healthHandler healthRequest freshApp).status = some 200
    ∧ ∃ h : Handler, server sampleDeps = some h
      ∧ (h healthRequest freshApp).panicked = true
      ∧ (h healthRequest freshApp).calls = []
      ∧ (h healthRequest freshApp).status = none
      ∧ (h healthRequest freshApp).status ≠ some 200
      ∧ (replay (h healthRequest freshApp).calls).Body = ""
      ∧ (h healthRequest freshApp).app.Redis.log = freshApp.Redis.log :=
  ⟨rfl, rfl, rfl,
    (health_route_panics_unbound sampleDeps healthRequest freshApp rfl rfl rfl rfl).1.1,
    (health_route_panics_unbound sampleDeps healthRequest freshApp rfl rfl rfl rfl).2⟩

/-! ## Interleaved runs of the limiter on one key -/

theorem step_start_absent (key : String) (s : Redis) (hok : ∀ c, s.fails c = false)
    (hkv : s.kv key = none) :
    RunState.step key RunState.start s
      = (RunState.checked 0, { s with log := s.log ++ [RedisCmd.get key] }) := by
  simp [RunState.step, Redis.Get, hok, hkv]

theorem step_start_present (key : String) (s : Redis) (c : Nat) (ttl : Option Nat)
    (hok : ∀ c, s.fails c = false) (hkv : s.kv key = some ⟨Itoa (c : Int), ttl⟩)
    (hc : c < 100) :
    RunState.step key RunState.start s
      = (RunState.checked (c : Int), { s with log := s.log ++ [RedisCmd.get key] }) := by
  have hlo : minInt64 ≤ (c : Int) := by unfold minInt64; omega
  have hhi : (c : Int) ≤ maxInt64 := by unfold maxInt64; omega
  have hlt : ¬ (100 : Int) ≤ (c : Int) := by omega
  simp [RunState.step, Redis.Get, hok, hkv, Itoa_ne_empty, Atoi_Itoa _ hlo hhi, hlt]

theorem step_checked_zero (key : String) (s : Redis) (hok : ∀ c, s.fails c = false) :
    (RunState.step key (RunState.checked 0) s).1 = RunState.admitted
      ∧ (RunState.step key (RunState.checked 0) s).2.fails = s.fails
      ∧ (RunState.step key (RunState.checked 0) s).2.kv key = some ⟨Itoa 1, some 60⟩ := by
  simp [RunState.step, Redis.SetEX, hok]

theorem step_checked_pos (key : String) (s : Redis) (cnt : Int) (c : Nat) (ttl : Option Nat)
    (hok : ∀ c, s.fails c = false) (hcnt : cnt ≠ 0)
    (hkv : s.kv key = some ⟨Itoa (c : Int), ttl⟩) (hc : c ≤ 100) :
    (RunState.step key (RunState.checked cnt) s).1 = RunState.admitted
      ∧ (RunState.step key (RunState.checked cnt) s).2.fails = s.fails
      ∧ (RunState.step key (RunState.checked cnt) s).2.kv key
          = some ⟨Itoa ((c : Int) + 1), ttl⟩ := by
  have hlo : minInt64 ≤ (c : Int) := by unfold minInt64; omega
  have hhi : (c : Int) ≤ maxInt64 := by unfold maxInt64; omega
  have hne : (c : Int) ≠ maxInt64 := by unfold maxInt64; omega
  simp [RunState.step, Redis.Incr, hok, hkv, hcnt, string2ll_Itoa _ hlo hhi, hne]

theorem stepAt_length (key : String) (i : Nat) (sys : List RunState × Redis) :
    (stepAt key i sys).1.length = sys.1.length := by
  unfold stepAt
  split
  · rfl
  · simp

theorem runSchedule_length (key : String) (sched : List Nat) (sys : List RunState × Redis) :
    (runSchedule key sched sys).1.length = sys.1.length := by
  induction sched generalizing sys with
  | nil => rfl
  | cons i rest ih =>
    show (runSchedule key rest (stepAt key i sys)).1.length = _
    rw [ih, stepAt_length]

theorem stepAt_inv (key : String) (i : Nat) (sys : List RunState × Redis)
    (hlen : sys.1.length ≤ 100) (hinv : RunsInv key sys) : RunsInv key (stepAt key i sys) := by
  obtain ⟨l, s⟩ := sys
  obtain ⟨hok, hruns, hstore⟩ := hinv
  simp only at hlen hok hruns hstore
  unfold stepAt
  simp only
  cases hget : l[i]? with
  | none => exact ⟨hok, hruns, hstore⟩
  | some st =>
    obtain ⟨hi, hst⟩ := List.getElem?_eq_some_iff.mp hget
    have hmem : st ∈ l := hst ▸ List.getElem_mem hi
    have hwle : l.countP RunState.isAdmitted ≤ l.length := List.countP_le_length _
    simp only
    rcases hruns st hmem with rfl | rfl | ⟨cnt, rfl, hcnt⟩
    · -- the run issues its `Get`
      have hw : l.countP RunState.isAdmitted < l.length := by
        rcases Nat.lt_or_ge (l.countP RunState.isAdmitted) l.length with h | h
        · exact h
        · have hall := List.countP_eq_length.mp (Nat.le_antisymm hwle h)
          exact absurd (hall _ hmem) (by decide)
      rcases hstore with ⟨hnone, hw0⟩ | ⟨c, hc1, hcw, hsome⟩
      · rw [step_start_absent key s hok hnone]
        have hcount : (l.set i (RunState.checked 0)).countP RunState.isAdmitted
            = l.countP RunState.isAdmitted := by
          rw [List.countP_set _ _ _ _ hi, hst]
          simp [RunState.isAdmitted]
        refine ⟨hok, ?_, Or.inl ⟨hnone, by rw [hcount]; exact hw0⟩⟩
        intro st1 hst1
        simp only at hst1 ⊢
        rw [hcount]
        rcases List.mem_or_eq_of_mem_set hst1 with h | h
        · exact hruns st1 h
        · exact Or.inr (Or.inr ⟨0, by rw [h]; rfl, Nat.zero_le _⟩)
      · rw [step_start_present key s c (some 60) hok hsome (by omega)]
        have hcount : (l.set i (RunState.checked (c : Int))).countP RunState.isAdmitted
            = l.countP RunState.isAdmitted := by
          rw [List.countP_set _ _ _ _ hi, hst]
          simp [RunState.isAdmitted]
        refine ⟨hok, ?_, Or.inr ⟨c, hc1, by rw [hcount]; exact hcw, hsome⟩⟩
        intro st1 hst1
        simp only at hst1 ⊢
        rw [hcount]
        rcases List.mem_or_eq_of_mem_set hst1 with h | h
        · exact hruns st1 h
        · exact Or.inr (Or.inr ⟨c, h, hcw⟩)
    · -- the run has ended: nothing changes
      have hw1 : 1 ≤ l.countP RunState.isAdmitted := by
        have := List.boole_getElem_le_countP RunState.isAdmitted l i hi
        rw [hst] at this
        simpa [RunState.isAdmitted] using this
      have hcount : (l.set i RunState.admitted).countP RunState.isAdmitted
          = l.countP RunState.isAdmitted := by
        rw [List.countP_set _ _ _ _ hi, hst]
        simp only [RunState.isAdmitted, if_true]
        omega
      refine ⟨hok, ?_, ?_⟩
      · intro st1 hst1
        simp only [RunState.step] at hst1 ⊢
        rw [hcount]
        rcases List.mem_or_eq_of_mem_set hst1 with h | h
        · exact hruns st1 h
        · exact Or.inr (Or.inl h)
      · simp only [RunState.step]
        rw [hcount]
        exact hstore
    · -- the run issues its write and is admitted
      have hcount : (l.set i RunState.admitted).countP RunState.isAdmitted
          = l.countP RunState.isAdmitted + 1 := by
        rw [List.countP_set _ _ _ _ hi, hst]
        simp [RunState.isAdmitted]
      have hruns1 : ∀ st1 ∈ l.set i RunState.admitted,
          st1 = RunState.start ∨ st1 = RunState.admitted
            ∨ ∃ cnt1 : Nat, st1 = RunState.checked (cnt1 : Int)
                ∧ cnt1 ≤ (l.set i RunState.admitted).countP RunState.isAdmitted := by
        intro st1 hst1
        rw [hcount]
        rcases List.mem_or_eq_of_mem_set hst1 with h | h
        · rcases hruns st1 h with h1 | h1 | ⟨c1, h1, h2⟩
          · exact Or.inl h1
          · exact Or.inr (Or.inl h1)
          · exact Or.inr (Or.inr ⟨c1, h1, by omega⟩)
        · exact Or.inr (Or.inl h)
      rcases Nat.eq_zero_or_pos cnt with h0 | hpos
      · subst h0
        obtain ⟨e1, e2, e3⟩ := step_checked_zero key s hok
        simp only [Nat.cast_zero] at *
        rw [e1]
        refine ⟨fun c => by rw [e2]; exact hok c, hruns1, Or.inr ⟨1, le_refl _, ?_, ?_⟩⟩
        · simp only
          rw [hcount]
          omega
        · simpa using e3
      · rcases hstore with ⟨_, hw0⟩ | ⟨c, hc1, hcw, hsome⟩
        · omega
        · obtain ⟨e1, e2, e3⟩ := step_checked_pos key s (cnt : Int) c (some 60) hok
            (by omega) hsome (by omega)
          rw [e1]
          refine ⟨fun c => by rw [e2]; exact hok c, hruns1, Or.inr ⟨c + 1, by omega, ?_, ?_⟩⟩
          · simp only
            rw [hcount]
            omega
          · simpa using e3

theorem runSchedule_inv (key : String) (sched : List Nat) (sys : List RunState × Redis)
    (hlen : sys.1.length ≤ 100) (hinv : RunsInv key sys) :
    RunsInv key (runSchedule key sched sys) := by
  induction sched generalizing sys with
  | nil => exact hinv
  | cons i rest ih =>
    show RunsInv key (runSchedule key rest (stepAt key i sys))
    exact ih _ (by rw [stepAt_length]; exact hlen) (stepAt_inv key i sys hlen hinv)

theorem stepAt_middle (key : String) (l1 l2 : List RunState) (st : RunState) (s : Redis) :
    stepAt key l1.length (l1 ++ st :: l2, s)
      = (l1 ++ (st.step key s).1 :: l2, (st.step key s).2) := by
  have hget : (l1 ++ st :: l2)[l1.length]? = some st := by
    rw [List.getElem?_append_right (Nat.le_refl _), Nat.sub_self]
    exact List.getElem?_cons_zero
  have hset : ∀ x : RunState, (l1 ++ st :: l2).set l1.length x = l1 ++ x :: l2 := by
    intro x
    simp
  unfold stepAt
  simp only [hget, hset]

theorem replicate_snoc_append (k : Nat) (x : RunState) (l : List RunState) :
    List.replicate k x ++ x :: l = List.replicate (k + 1) x ++ l := by
  rw [List.replicate_succ', List.append_assoc]
  rfl

theorem runSchedule_append (key : String) (s1 s2 : List Nat) (sys : List RunState × Redis) :
    runSchedule key (s1 ++ s2) sys = runSchedule key s2 (runSchedule key s1 sys) := by
  unfold runSchedule
  rw [List.foldl_append]

/-- Sequential runs in a fresh window: after the first `k` of `N` runs have gone one
after the other, they are admitted, the rest has not started, and the counter is `k`. -/
theorem seqSchedule_state (key : String) (N : Nat) (hN : N ≤ 100) (s : Redis)
    (hfresh : s.kv key = none) (hok : ∀ c, s.fails c = false) (k : Nat) (hk : k ≤ N) :
    (runSchedule key (seqSchedule k) (List.replicate N RunState.start, s)).1
        = List.replicate k RunState.admitted ++ List.replicate (N - k) RunState.start
      ∧ (∀ c, (runSchedule key (seqSchedule k) (List.replicate N RunState.start, s)).2.fails c
          = false)
      ∧ (k = 0 → (runSchedule key (seqSchedule k) (List.replicate N RunState.start, s)).2.kv key
          = none)
      ∧ (0 < k → (runSchedule key (seqSchedule k) (List.replicate N RunState.start, s)).2.kv key
          = some ⟨Itoa (k : Int), some 60⟩) := by
  induction k with
  | zero =>
    exact ⟨by simp [seqSchedule, runSchedule], hok, fun _ => hfresh, fun h => absurd h (by omega)⟩
  | succ k ih =>
    obtain ⟨h1, h2, h3, h4⟩ := ih (by omega)
    have hsplit : List.replicate (N - k) RunState.start
        = RunState.start :: List.replicate (N - (k + 1)) RunState.start := by
      have : N - k = (N - (k + 1)) + 1 := by omega
      rw [this, List.replicate_succ]
    have hsys : runSchedule key (seqSchedule k) (List.replicate N RunState.start, s)
        = (List.replicate k RunState.admitted
            ++ RunState.start :: List.replicate (N - (k + 1)) RunState.start,
          (runSchedule key (seqSchedule k) (List.replicate N RunState.start, s)).2) := by
      rw [← hsplit, ← h1]
    have hrun : runSchedule key (seqSchedule (k + 1)) (List.replicate N RunState.start, s)
        = stepAt key (List.replicate k RunState.admitted).length
            (stepAt key (List.replicate k RunState.admitted).length
              (runSchedule key (seqSchedule k) (List.replicate N RunState.start, s))) := by
      show runSchedule key (seqSchedule k ++ [k, k]) _ = _
      rw [runSchedule_append, List.length_replicate]
      rfl
    rw [hrun, hsys]
    generalize (runSchedule key (seqSchedule k) (List.replicate N RunState.start, s)).2 = sk
      at h2 h3 h4
    rw [stepAt_middle]
    rcases Nat.eq_zero_or_pos k with hk0 | hkpos
    · rw [step_start_absent key sk h2 (h3 hk0), stepAt_middle]
      obtain ⟨e1, e2, e3⟩ := step_checked_zero key
        { sk with log := sk.log ++ [RedisCmd.get key] } h2
      subst hk0
      refine ⟨?_, ?_, fun h => absurd h (by omega), fun _ => ?_⟩
      · simp only
        rw [e1, replicate_snoc_append]
      · intro c
        simp only
        rw [e2]
        exact h2 c
      · simpa using e3
    · rw [step_start_present key sk k (some 60) h2 (h4 hkpos) (by omega), stepAt_middle]
      obtain ⟨e1, e2, e3⟩ := step_checked_pos key
        { sk with log := sk.log ++ [RedisCmd.get key] } (k : Int) k (some 60) h2 (by omega)
        (h4 hkpos) (by omega)
      refine ⟨?_, ?_, fun h => absurd h (by omega), fun _ => ?_⟩
      · simp only
        rw [e1, replicate_snoc_append]
      · intro c
        simp only
        rw [e2]
        exact h2 c
      · simpa using e3

/-- The two store commands of `RunState.step` are the run of `rateLimitMiddleware`: its
outcome is that of the two steps taken back to back on the store. -/
theorem rateLimit_eq_steps (next : Handler) (r : Request) (a : App) (t : String)
    (hr : Context.Value r.ctx "tenant_id" = some (CtxValue.str t)) :
    rateLimitMiddleware next r a
      = match RunState.step (rateLimitKey t)
            (RunState.step (rateLimitKey t) RunState.start a.Redis).1
            (RunState.step (rateLimitKey t) RunState.start a.Redis).2 with
        | (RunState.admitted, s) => next r { a with Redis := s }
        | (RunState.rejected code, s) =>
          { calls := httpError
              (if code = 429 then "Rate limit exceeded" else "Internal server error") code,
            app := { a with Redis := s }, panicked := false }
        | (_, s) => { calls := [], app := { a with Redis := s }, panicked := true } := by
  unfold rateLimitMiddleware
  simp only [hr, RunState.step]
  by_cases h1 : ((a.Redis.Get (rateLimitKey t)).1.2 ≠ RedisErr.none
      ∧ (a.Redis.Get (rateLimitKey t)).1.2 ≠ RedisErr.Nil)
  · simp only [if_pos h1, RunState.step]
    rfl
  · simp only [if_neg h1]
    generalize (if (a.Redis.Get (rateLimitKey t)).1.1 ≠ "" then
      Atoi (a.Redis.Get (rateLimitKey t)).1.1 else 0) = count
    by_cases h2 : count ≥ 100
    · simp only [if_pos h2, RunState.step]
      rfl
    · simp only [if_neg h2, RunState.step]

/-- The part of the concurrency property that the code meets: for `N ≤ 100` runs for one
tenant in a fresh window without store errors, under every interleaving of their store
commands that lets every run end, all `N` runs are admitted and the stored counter does
not exceed `N` (it is at least 1 for `N > 0`, with 60 seconds to live); on the schedule
where the runs do not interleave it is exactly `N`. -/
theorem interleaved_runs_all_admitted (t : String) (N : Nat) (hN : N ≤ 100) (sched : List Nat)
    (s : Redis) (hfresh : s.kv (rateLimitKey t) = none) (hok : ∀ c, s.fails c = false)
    (hdone : ∀ st ∈ (runSchedule (rateLimitKey t) sched
      (List.replicate N RunState.start, s)).1, st.isDone = true) :
    (runSchedule (rateLimitKey t) sched (List.replicate N RunState.start, s)).1
        = List.replicate N RunState.admitted
    ∧ (N = 0 → (runSchedule (rateLimitKey t) sched
        (List.replicate N RunState.start, s)).2.kv (rateLimitKey t) = none)
    ∧ (0 < N → ∃ c : Nat, 1 ≤ c ∧ c ≤ N
        ∧ (runSchedule (rateLimitKey t) sched
            (List.replicate N RunState.start, s)).2.kv (rateLimitKey t)
          = some ⟨Itoa (c : Int), some 60⟩)
    ∧ (runSchedule (rateLimitKey t) (seqSchedule N) (List.replicate N RunState.start, s)).1
        = List.replicate N RunState.admitted
    ∧ (0 < N → (runSchedule (rateLimitKey t) (seqSchedule N)
        (List.replicate N RunState.start, s)).2.kv (rateLimitKey t)
          = some ⟨Itoa (N : Int), some 60⟩) := by
  have hlen0 : (List.replicate N RunState.start, s).1.length ≤ 100 := by
    simp only [List.length_replicate]
    exact hN
  have hinv0 : RunsInv (rateLimitKey t) (List.replicate N RunState.start, s) := by
    refine ⟨hok, ?_, Or.inl ⟨hfresh, ?_⟩⟩
    · intro st hst
      exact Or.inl (List.mem_replicate.mp hst).2
    · rw [List.countP_eq_zero]
      intro st hst
      rw [(List.mem_replicate.mp hst).2]
      decide
  have hlen := runSchedule_length (rateLimitKey t) sched (List.replicate N RunState.start, s)
  obtain ⟨_, hruns, hstore⟩ := runSchedule_inv (rateLimitKey t) sched _ hlen0 hinv0
  simp only [List.length_replicate] at hlen
  generalize runSchedule (rateLimitKey t) sched (List.replicate N RunState.start, s) = fin
    at hdone hlen hruns hstore ⊢
  have hall : ∀ st ∈ fin.1, st = RunState.admitted := by
    intro st hst
    rcases hruns st hst with h | h | ⟨c, h, _⟩
    · have := hdone st hst
      rw [h] at this
      exact absurd this (by decide)
    · exact h
    · have := hdone st hst
      rw [h] at this
      exact absurd this (by simp [RunState.isDone])
  have hcount : fin.1.countP RunState.isAdmitted = N := by
    rw [← hlen, List.countP_eq_length]
    intro st hst
    rw [hall st hst]
    rfl
  obtain ⟨q1, _, _, q4⟩ := seqSchedule_state (rateLimitKey t) N hN s hfresh hok N (le_refl _)
  refine ⟨List.eq_replicate_iff.mpr ⟨hlen, hall⟩, ?_, ?_, ?_, q4⟩
  · intro h0
    rcases hstore with ⟨h, _⟩ | ⟨c, hc1, hcw, _⟩
    · exact h
    · omega
  · intro hpos
    rcases hstore with ⟨_, h⟩ | ⟨c, hc1, hcw, h⟩
    · omega
    · exact ⟨c, hc1, by omega, h⟩
  · rw [q1]
    simp

/-- C4 at its failing input: two runs of the limiter for one tenant in a fresh window,
both issuing `Get` before either writes. The limiter reads the counter and then writes
it: both runs read an absent key, both send `SetEX` with 1 (the second on a key that is
no longer new), both are admitted, and the counter ends at 1, not 2; one after the other
the same two runs leave 2. From a counter of 5 the same interleaving ends at 7, the
`Incr` branch losing nothing; from 99 both runs pass the check and are admitted, the
counter ends at 101, where one after the other the second is rejected with 429. -/
theorem interleaved_runs_lose_update :
    (runSchedule (rateLimitKey "t1") [0, 1, 0, 1]
        (List.replicate 2 RunState.start, emptyRedis)).1
        = [RunState.admitted, RunState.admitted]
    ∧ (runSchedule (rateLimitKey "t1") [0, 1, 0, 1]
        (List.replicate 2 RunState.start, emptyRedis)).2.kv (rateLimitKey "t1")
        = some ⟨"1", some 60⟩
    ∧ (runSchedule (rateLimitKey "t1") [0, 1, 0, 1]
        (List.replicate 2 RunState.start, emptyRedis)).2.kv (rateLimitKey "t1")
        ≠ some ⟨Itoa 2, some 60⟩
    ∧ (runSchedule (rateLimitKey "t1") [0, 1, 0, 1]
        (List.replicate 2 RunState.start, emptyRedis)).2.log
        = [RedisCmd.get "rate_limit:t1", RedisCmd.get "rate_limit:t1",
           RedisCmd.setex "rate_limit:t1" "1" 60, RedisCmd.setex "rate_limit:t1" "1" 60]
    ∧ (runSchedule (rateLimitKey "t1") [0, 0, 1, 1]
        (List.replicate 2 RunState.start, emptyRedis)).2.kv (rateLimitKey "t1")
        = some ⟨"2", some 60⟩
    ∧ (runSchedule (rateLimitKey "t1") [0, 1, 0, 1]
        (List.replicate 2 RunState.start, redisHolding (rateLimitKey "t1") "5")).2.kv
          (rateLimitKey "t1")
        = some ⟨"7", some 60⟩
    ∧ (runSchedule (rateLimitKey "t1") [0, 1, 0, 1]
        (List.replicate 2 RunState.start, redisHolding (rateLimitKey "t1") "99")).1
        = [RunState.admitted, RunState.admitted]
    ∧ (runSchedule (rateLimitKey "t1") [0, 1, 0, 1]
        (List.replicate 2 RunState.start, redisHolding (rateLimitKey "t1") "99")).2.kv
          (rateLimitKey "t1")
        = some ⟨"101", some 60⟩
    ∧ (runSchedule (rateLimitKey "t1") [0, 0, 1, 1]
        (List.replicate 2 RunState.start, redisHolding (rateLimitKey "t1") "99")).1
        = [RunState.admitted, RunState.rejected 429] := by
  refine ⟨by decide, by decide, by decide, by decide, by decide, by decide, by decide,
    by decide, by decide⟩

end Api
